import Mathlib

/-!
Shallow embedding of the owner entity-resolution engine of
`services/scraper-service/python/owner_detection.py`.

Conventions of the embedding:
* Python strings are Lean `String`; digit filtering and prefix tests work on
  the underlying `List Char`.
* Python `None`-able record fields are `Option` fields; Python truthiness of a
  string `s` is `s ≠ ""` on the `some` case.
* Machine time (`datetime.now()`) is an explicit `now : Nat` parameter; both
  `datetime.now()` calls of one reconciliation run yield the same `now`.
* The Supabase tables `detected_owners` and `owner_listings` are explicit
  lists in a `DB` state; row ids handed out by the store are modelled by a
  `nextId` counter.
* Python `set` values are modelled as first-insertion-ordered duplicate-free
  lists; list equality of two such values implies equality of the sets.
* Exceptions from store and RPC calls are injected by a fault oracle
  `fault : Nat → Option String` indexed by a running call counter; `some msg`
  means the call raises an exception carrying message `msg`.
-/

namespace Gestoo

/-! ### Phone normalizer (`normalize_phone`, lines 18-37) -/

/-- All decimal-digit characters of a string, in order (line 23). -/
def digitsOf (s : String) : List Char :=
  s.data.filter Char.isDigit

/-- Prefix stripping of lines 26-31: `00221` drops 5 chars, else `221` drops
3 chars, else a leading `0` drops 1 char. -/
def stripCountry (ds : List Char) : List Char :=
  if ['0', '0', '2', '2', '1'].isPrefixOf ds then ds.drop 5
  else if ['2', '2', '1'].isPrefixOf ds then ds.drop 3
  else if ['0'].isPrefixOf ds then ds.drop 1
  else ds

/-- Lines 18-37, `normalize_phone`: strip non-digits, strip the country
prefix, accept exactly 9 digits starting with 7 or 3. -/
def normalize_phone (phone : String) : Option String :=
  if phone = "" then none
  else
    let digits := stripCountry (digitsOf phone)
    if digits.length = 9 ∧ (['7'].isPrefixOf digits ∨ ['3'].isPrefixOf digits) then
      some (String.mk ('+' :: '2' :: '2' :: '1' :: digits))
    else none

/-! ### Listings and signal extraction -/

/-- The phone-bearing fields of `raw_data` consulted by
`extract_phone_from_listing` (line 45). -/
structure RawData where
  phone : Option String
  phoneNumber : Option String
  whatsapp : Option String
  contact_phone : Option String
deriving DecidableEq

/-- Line 42: the empty dict used when `raw_data` is missing. -/
def RawData.empty : RawData :=
  { phone := none, phoneNumber := none, whatsapp := none, contact_phone := none }

/-- One row of `scraped_listings`, restricted to the columns the engine
reads. Prices are modelled as integers. -/
structure Listing where
  id : Nat
  platform : String
  host_id : Option String
  host_name : Option String
  price : Option Int
  raw_data : Option RawData
  is_active : Bool
deriving DecidableEq

/-- The loop body of lines 45-51: walk the candidate field values in order,
skip falsy values, return the first value that normalizes. -/
def tryPhoneFields : List (Option String) → Option String
  | [] => none
  | f :: rest =>
    match f with
    | some s =>
      if s ≠ "" then
        match normalize_phone s with
        | some n => some n
        | none => tryPhoneFields rest
      else tryPhoneFields rest
    | none => tryPhoneFields rest

/-- Lines 40-53, `extract_phone_from_listing`. -/
def extract_phone_from_listing (l : Listing) : Option String :=
  let raw := l.raw_data.getD RawData.empty
  tryPhoneFields [raw.phone, raw.phoneNumber, raw.whatsapp, raw.contact_phone]

/-- The host-id test of lines 87-90: a truthy `host_id` on a platform in
the list of the platforms airbnb and booking yields the key `"platform:host_id"`. -/
def hostKey (l : Listing) : Option String :=
  match l.host_id with
  | some h =>
    if h ≠ "" ∧ l.platform ∈ ["airbnb", "booking"] then
      some (l.platform ++ ":" ++ h)
    else none
  | none => none

/-! ### Grouping (`defaultdict(list)` keyed maps, lines 76-91)

A Python dict preserves key insertion order; an entry is an association pair
from a key to the listings appended under that key. -/

/-- Appending a listing under a key of an insertion-ordered dict. -/
def addToGroup (k : String) (v : Listing) :
    List (String × List Listing) → List (String × List Listing)
  | [] => [(k, [v])]
  | (k', vs) :: rest =>
    if k' = k then (k', vs ++ [v]) :: rest
    else (k', vs) :: addToGroup k v rest

/-- The grouping loop of lines 80-91, projected to one keyed dict: every
listing whose key function fires is appended under its key. -/
def groupByKey (f : Listing → Option String) (listings : List Listing) :
    List (String × List Listing) :=
  listings.foldl
    (fun m l =>
      match f l with
      | some k => addToGroup k l m
      | none => m)
    []

/-! ### Cluster building (`detect_owners`, lines 76-126) -/

/-- One entry of `owner_groups` (lines 101-106 and 119-124). -/
structure OwnerGroup where
  match_type : String
  identifier : String
  listings : List Listing
  listing_ids : List Nat
deriving DecidableEq

/-- The phone cluster built from one phone-map entry (lines 101-106). -/
def phoneGroupOf (kv : String × List Listing) : OwnerGroup :=
  { match_type := "phone", identifier := kv.1, listings := kv.2,
    listing_ids := kv.2.map (·.id) }

/-- One iteration of the phone loop of lines 98-107: every phone group (all
are nonempty, the `len >= 1` guard is kept from the source) becomes a
cluster and claims its listing ids into `processed_listing_ids`. -/
def phoneStep (gp : List OwnerGroup × List Nat) (kv : String × List Listing) :
    List OwnerGroup × List Nat :=
  if 1 ≤ kv.2.length then
    (gp.1 ++ [phoneGroupOf kv], gp.2 ++ kv.2.map (·.id))
  else gp

/-- Phone pass of lines 97-107. -/
def phonePass (byPhone : List (String × List Listing)) :
    List OwnerGroup × List Nat :=
  byPhone.foldl phoneStep ([], [])

/-- One iteration of the host-id loop of lines 110-125: ids already claimed
are dropped, a group left with no new ids produces no cluster. -/
def hostStep (gp : List OwnerGroup × List Nat) (kv : String × List Listing) :
    List OwnerGroup × List Nat :=
  let listing_ids : List Nat := kv.2.map (·.id)
  let new_ids : List Nat := listing_ids.filter (fun lid => decide (lid ∉ gp.2))
  if new_ids ≠ [] then
    let new_listings := kv.2.filter (fun l => decide (l.id ∈ new_ids))
    if new_listings ≠ [] then
      (gp.1 ++ [{ match_type := "host_id", identifier := kv.1,
                  listings := new_listings, listing_ids := new_ids }],
       gp.2 ++ new_ids)
    else gp
  else gp

/-- Host-id pass of lines 109-125. -/
def hostPass (byHost : List (String × List Listing))
    (start : List OwnerGroup × List Nat) : List OwnerGroup × List Nat :=
  byHost.foldl hostStep start

/-- The in-memory clustering of `detect_owners` (lines 76-126) over the
fetched active-listing list. -/
def build_owner_groups (listings : List Listing) : List OwnerGroup :=
  let by_phone := groupByKey extract_phone_from_listing listings
  let by_host_id := groupByKey hostKey listings
  (hostPass by_host_id (phonePass by_phone)).1

/-! ### Owner aggregation (`save_owners_to_db`, lines 150-199) -/

/-- Add to a Python `set` modelled as a first-insertion-ordered list. -/
def setInsert (xs : List String) (x : String) : List String :=
  if x ∈ xs then xs else xs ++ [x]

/-- The running accumulators of the listing loop of lines 151-174. -/
structure Agg where
  names : List String
  platforms : List String
  host_ids : List String
  total_price : Int
  price_count : Nat
deriving DecidableEq

/-- One iteration of the loop of lines 157-174. -/
def aggStep (a : Agg) (l : Listing) : Agg :=
  let names :=
    match l.host_name with
    | some n => if n ≠ "" ∧ n.trim ≠ "" then setInsert a.names n.trim else a.names
    | none => a.names
  let platforms := setInsert a.platforms l.platform
  let host_ids :=
    match l.host_id with
    | some h => if h ≠ "" then setInsert a.host_ids (l.platform ++ ":" ++ h) else a.host_ids
    | none => a.host_ids
  let prices : Int × Nat :=
    match l.price with
    | some p => if p ≠ 0 ∧ 0 < p then (a.total_price + p, a.price_count + 1)
                else (a.total_price, a.price_count)
    | none => (a.total_price, a.price_count)
  { names := names, platforms := platforms, host_ids := host_ids,
    total_price := prices.1, price_count := prices.2 }

/-- The whole loop of lines 157-174. -/
def aggListings (listings : List Listing) : Agg :=
  listings.foldl aggStep { names := [], platforms := [], host_ids := [],
                           total_price := 0, price_count := 0 }

/-- The `owner_data` dict of lines 180-199. The `primary_phone` key is present
exactly for phone clusters; the `host_id` branch of lines 197-199 parses the
identifier into two locals and stores neither, so it has no effect. -/
structure OwnerData where
  primary_phone : Option String
  names : List String
  host_ids : List String
  platforms : List String
  listing_count : Nat
  active_listing_count : Nat
  unregistered_count : Nat
  registered_count : Nat
  avg_price_per_night : Int
  estimated_monthly_revenue : Int
  last_seen_at : Nat
deriving DecidableEq

/-- Lines 150-199: aggregate the member listings into the `owner_data` dict. -/
def buildOwnerData (listings : List Listing) (match_type identifier : String)
    (now : Nat) : OwnerData :=
  let a := aggListings listings
  let avg_price : Int := if 0 < a.price_count then a.total_price / (a.price_count : Int) else 0
  let estimated_monthly : Int :=
    if avg_price ≠ 0 then avg_price * (listings.length : Int) * 15 else 0
  { primary_phone := if match_type = "phone" then some identifier else none,
    names := a.names,
    host_ids := a.host_ids,
    platforms := a.platforms,
    listing_count := listings.length,
    active_listing_count := listings.length,
    unregistered_count := listings.length,
    registered_count := 0,
    avg_price_per_night := avg_price,
    estimated_monthly_revenue := estimated_monthly,
    last_seen_at := now }

/-! ### The owner store -/

/-- One row of `detected_owners`, restricted to the columns the engine
writes or reads. `risk_score` is written only by the external RPC. -/
structure Owner where
  id : Nat
  primary_phone : Option String
  names : List String
  host_ids : List String
  platforms : List String
  listing_count : Nat
  active_listing_count : Nat
  unregistered_count : Nat
  registered_count : Nat
  avg_price_per_night : Int
  estimated_monthly_revenue : Int
  risk_score : Int
  first_seen_at : Nat
  last_seen_at : Nat
deriving DecidableEq

/-- One row of `owner_listings` (lines 222-227). -/
structure Link where
  owner_id : Nat
  scraped_listing_id : Nat
  match_type : String
  confidence : ℚ
deriving DecidableEq

/-- The persistent store: both tables plus the id sequence of
`detected_owners`. -/
structure DB where
  owners : List Owner
  links : List Link
  nextId : Nat
deriving DecidableEq

def emptyDB : DB := { owners := [], links := [], nextId := 0 }

/-- The `stats` dict of lines 137-142. -/
structure Stats where
  total_owners : Nat
  multi_property : Nat
  new_owners : Nat
  updated_owners : Nat
deriving DecidableEq

/-- The running state of one `save_owners_to_db` call: the store, the stats
dict, the stderr error log, and the external-call counter feeding the fault
oracle. -/
structure SaveState where
  db : DB
  stats : Stats
  log : List String
  ctr : Nat
deriving DecidableEq

/-- The fault oracle of a run with no store or RPC failures. -/
def noFault : Nat → Option String := fun _ => none

/-- Line 241: the message printed by the `except` clause. -/
def errLine (msg : String) : String :=
  "[Owner Detection] Error saving owner: " ++ msg

/-- Line 216: an insert returns a fresh row with the store-assigned id; the
inserted payload also carries `first_seen_at = now` (line 215). -/
def newOwner (id : Nat) (d : OwnerData) (now : Nat) : Owner :=
  { id := id, primary_phone := d.primary_phone, names := d.names,
    host_ids := d.host_ids, platforms := d.platforms,
    listing_count := d.listing_count,
    active_listing_count := d.active_listing_count,
    unregistered_count := d.unregistered_count,
    registered_count := d.registered_count,
    avg_price_per_night := d.avg_price_per_night,
    estimated_monthly_revenue := d.estimated_monthly_revenue,
    risk_score := 0, first_seen_at := now, last_seen_at := d.last_seen_at }

/-- Line 210: `update(owner_data)` overwrites exactly the columns present in
the dict; `id`, `first_seen_at` and `risk_score` are not in the dict, and
`primary_phone` is in the dict only for phone clusters. -/
def applyOwnerData (o : Owner) (d : OwnerData) : Owner :=
  { o with
    primary_phone :=
      match d.primary_phone with
      | some p => some p
      | none => o.primary_phone,
    names := d.names, host_ids := d.host_ids, platforms := d.platforms,
    listing_count := d.listing_count,
    active_listing_count := d.active_listing_count,
    unregistered_count := d.unregistered_count,
    registered_count := d.registered_count,
    avg_price_per_night := d.avg_price_per_night,
    estimated_monthly_revenue := d.estimated_monthly_revenue,
    last_seen_at := d.last_seen_at }

/-- Lines 203-206: select the first owner whose `primary_phone` equals the
identifier exactly. -/
def lookupExisting (db : DB) (identifier : String) : Option Owner :=
  db.owners.find? (fun o => decide (o.primary_phone = some identifier))

/-- The `link_data` dict of lines 222-227. -/
def mkLink (ownerId listingId : Nat) (match_type : String) : Link :=
  { owner_id := ownerId, scraped_listing_id := listingId,
    match_type := match_type,
    confidence := if match_type = "phone" then 1 else 9 / 10 }

/-- Lines 228-231: upsert with `on_conflict = (owner_id, scraped_listing_id)`,
replacing conflicting rows in place, appending otherwise. -/
def upsertLink (links : List Link) (d : Link) : List Link :=
  if links.any (fun l =>
      decide (l.owner_id = d.owner_id ∧ l.scraped_listing_id = d.scraped_listing_id)) then
    links.map (fun l =>
      if l.owner_id = d.owner_id ∧ l.scraped_listing_id = d.scraped_listing_id then d else l)
  else links ++ [d]

/-- The link loop of lines 221-231: one fallible upsert per member listing;
a raised exception stops the loop, keeping the rows already written. -/
def upsertLinks (fault : Nat → Option String) (ctr : Nat) (links : List Link)
    (ownerId : Nat) (match_type : String) :
    List Listing → List Link × Nat × Option String
  | [] => (links, ctr, none)
  | l :: rest =>
    match fault ctr with
    | some msg => (links, ctr + 1, some msg)
    | none =>
      upsertLinks fault (ctr + 1) (upsertLink links (mkLink ownerId l.id match_type))
        ownerId match_type rest

/-- Lines 220-238: link upserts, the risk-score RPC (line 234, an external
call with no effect on the modelled columns), then the success counters. -/
def processLinks (fault : Nat → Option String) (st : SaveState)
    (g : OwnerGroup) (ownerId : Nat) : SaveState :=
  match upsertLinks fault st.ctr st.db.links ownerId g.match_type g.listings with
  | (links', ctr', some msg) =>
    { st with db := { st.db with links := links' },
              log := st.log ++ [errLine msg], ctr := ctr' }
  | (links', ctr', none) =>
    match fault ctr' with
    | some msg =>
      { st with db := { st.db with links := links' },
                log := st.log ++ [errLine msg], ctr := ctr' + 1 }
    | none =>
      { db := { st.db with links := links' },
        stats := { st.stats with
                   total_owners := st.stats.total_owners + 1,
                   multi_property := st.stats.multi_property +
                     (if 1 < g.listings.length then 1 else 0) },
        log := st.log, ctr := ctr' + 1 }

/-- Lines 208-218: the update-or-insert write, whose success counter is
incremented right after the write and before the link loop. -/
def processAfterLookup (fault : Nat → Option String) (now : Nat) (st : SaveState)
    (g : OwnerGroup) (d : OwnerData) (existing : Option Owner) : SaveState :=
  match existing with
  | some o =>
    match fault st.ctr with
    | some msg => { st with log := st.log ++ [errLine msg], ctr := st.ctr + 1 }
    | none =>
      processLinks fault
        { st with
          db := { st.db with
                  owners := st.db.owners.map
                    (fun p => if p.id = o.id then applyOwnerData p d else p) },
          stats := { st.stats with updated_owners := st.stats.updated_owners + 1 },
          ctr := st.ctr + 1 }
        g o.id
  | none =>
    match fault st.ctr with
    | some msg => { st with log := st.log ++ [errLine msg], ctr := st.ctr + 1 }
    | none =>
      processLinks fault
        { st with
          db := { owners := st.db.owners ++ [newOwner st.db.nextId d now],
                  links := st.db.links, nextId := st.db.nextId + 1 },
          stats := { st.stats with new_owners := st.stats.new_owners + 1 },
          ctr := st.ctr + 1 }
        g st.db.nextId

/-- One iteration of the `for group in owner_groups` loop (lines 144-241),
together with its `try/except`: any raised exception is caught, logged, and
leaves the iteration. -/
def processGroup (fault : Nat → Option String) (now : Nat) (st : SaveState)
    (g : OwnerGroup) : SaveState :=
  let d := buildOwnerData g.listings g.match_type g.identifier now
  if g.match_type = "phone" ∧ g.identifier ≠ "" then
    match fault st.ctr with
    | some msg => { st with log := st.log ++ [errLine msg], ctr := st.ctr + 1 }
    | none =>
      processAfterLookup fault now { st with ctr := st.ctr + 1 } g d
        (lookupExisting st.db g.identifier)
  else
    processAfterLookup fault now st g d none

/-- The state at the top of `save_owners_to_db` (lines 137-142): zeroed
stats, no errors yet, no external call made yet. -/
def startState (db : DB) : SaveState :=
  { db := db,
    stats := { total_owners := 0, multi_property := 0,
               new_owners := 0, updated_owners := 0 },
    log := [], ctr := 0 }

/-- Lines 135-243, `save_owners_to_db`, over an explicit store state. -/
def save_owners_to_db (fault : Nat → Option String) (now : Nat) (db : DB)
    (owner_groups : List OwnerGroup) : SaveState :=
  owner_groups.foldl (processGroup fault now) (startState db)

/-- Lines 56-132, `detect_owners`: fetch the active listings, build the
clusters, persist them. -/
def detect_owners (fault : Nat → Option String) (now : Nat) (db : DB)
    (store : List Listing) : SaveState :=
  let listings := store.filter (·.is_active)
  let owner_groups := build_owner_groups listings
  save_owners_to_db fault now db owner_groups

/-! ### Report projection (`generate_owner_report`, lines 270-278, and
`print_report`, line 302) -/

/-- One entry of `top_operators` (lines 271-278). -/
structure TopOperator where
  phone : Option String
  names : List String
  platforms : List String
  listing_count : Nat
  risk_score : Int
  estimated_monthly_revenue : Int
deriving DecidableEq

/-- Lines 271-278: the per-owner report projection. -/
def topOperatorOf (o : Owner) : TopOperator :=
  { phone := o.primary_phone, names := o.names, platforms := o.platforms,
    listing_count := o.listing_count, risk_score := o.risk_score,
    estimated_monthly_revenue := o.estimated_monthly_revenue }

/-- Line 302: a missing or empty phone is displayed as No phone. -/
def phoneDisplay (p : Option String) : String :=
  match p with
  | some s => if s = "" then "No phone" else s
  | none => "No phone"

/-! ### Derived definitions used by the statements -/

/-- Specification-side reading of the field-priority rule: the first valid
normalizer result over the candidate field values, in order. -/
def firstValidPhone (cands : List (Option String)) : Option String :=
  (cands.filterMap (fun c =>
    c.bind (fun s => if s = "" then none else normalize_phone s))).head?

/-- A fault oracle raising exactly at external call number `k`. -/
def faultAt (k : Nat) (msg : String) : Nat → Option String :=
  fun n => if n = k then some msg else none

/-- Refreshing only the `last_seen_at` column of an owner row. -/
def touchLastSeen (now : Nat) (o : Owner) : Owner :=
  { o with last_seen_at := now }

/-- The owner rows inserted by one fault-free run over fresh phone clusters,
ids counting up from `nid`. -/
def run1Owners (gs : List OwnerGroup) (nid now : Nat) : List Owner :=
  match gs with
  | [] => []
  | g :: rest =>
    newOwner nid (buildOwnerData g.listings g.match_type g.identifier now) now ::
      run1Owners rest (nid + 1) now

/-- The link rows inserted by one fault-free run over fresh clusters with
duplicate-free listing ids, owner ids counting up from `nid`. -/
def run1Links (gs : List OwnerGroup) (nid : Nat) : List Link :=
  match gs with
  | [] => []
  | g :: rest =>
    g.listings.map (fun l => mkLink nid l.id g.match_type) ++ run1Links rest (nid + 1)

/-- Two link rows collide on the upsert conflict key. -/
def sameLinkKey (a b : Link) : Prop :=
  a.owner_id = b.owner_id ∧ a.scraped_listing_id = b.scraped_listing_id

instance (a b : Link) : Decidable (sameLinkKey a b) := by
  unfold sameLinkKey; infer_instance

/-! ### Concrete sample data for closed statements -/

/-- A listing with a valid phone and an airbnb host id. -/
def listingA : Listing :=
  { id := 1, platform := "airbnb", host_id := some "h1", host_name := none,
    price := none, is_active := true,
    raw_data := some { phone := some "+221771111111", phoneNumber := none,
                       whatsapp := none, contact_phone := none } }

/-- A listing with no phone data and the same airbnb host id. -/
def listingB : Listing :=
  { id := 2, platform := "airbnb", host_id := some "h1", host_name := none,
    price := none, raw_data := none, is_active := true }

/-- A phoneless, hostless listing with a price. -/
def pricedListing (i : Nat) (p : Int) : Listing :=
  { id := i, platform := "expat-dakar", host_id := none, host_name := none,
    price := some p, raw_data := none, is_active := true }

/-- The positive prices among the member listings, in listing order. -/
def posPrices (ls : List Listing) : List Int :=
  (ls.filterMap (·.price)).filter (fun p => decide (0 < p))

/-- The phone cluster claiming `listingA`. -/
def phoneGroupW : OwnerGroup :=
  { match_type := "phone", identifier := "+221771111111",
    listings := [listingA], listing_ids := [1] }

/-- The host-id cluster claiming `listingB`. -/
def hostGroupW : OwnerGroup :=
  { match_type := "host_id", identifier := "airbnb:h1",
    listings := [listingB], listing_ids := [2] }

/-- Boolean check that `pat` occurs as a contiguous segment of `s`. -/
def containsSeg (pat : List Char) : List Char → Bool
  | [] => decide (pat = [])
  | c :: rest => pat.isPrefixOf (c :: rest) || containsSeg pat rest

/-- A persisted owner row with no `primary_phone`, as host-id reconciliation
writes them. -/
def ownerW : Owner :=
  { id := 0, primary_phone := none, names := [], host_ids := ["airbnb:h1"],
    platforms := ["airbnb"], listing_count := 1, active_listing_count := 1,
    unregistered_count := 1, registered_count := 0, avg_price_per_night := 0,
    estimated_monthly_revenue := 0, risk_score := 0, first_seen_at := 0,
    last_seen_at := 0 }

/-- A store already holding the phoneless owner row. -/
def dbW : DB := { owners := [ownerW], links := [], nextId := 1 }

/-- Structural invariant of a keyed grouping map: distinct keys, nonempty
entries, and every member satisfying the keying predicate of its entry. -/
def GroupMapInv (P : Listing → String → Prop)
    (m : List (String × List Listing)) : Prop :=
  (m.map Prod.fst).Nodup ∧ ∀ p ∈ m, p.2 ≠ [] ∧ ∀ v ∈ p.2, P v p.1

/-! ## Helper lemmas -/

theorem singleton_isPrefixOf_iff (a : Char) (l : List Char) :
    [a].isPrefixOf l = true ↔ l.head? = some a := by
  cases l with
  | nil => simp
  | cons b t =>
    simp only [List.isPrefixOf_cons₂, List.isPrefixOf_nil_left, Bool.and_true,
      beq_iff_eq, List.head?_cons, Option.some.injEq]
    exact eq_comm

theorem tryPhoneFields_eq (cands : List (Option String)) :
    tryPhoneFields cands = firstValidPhone cands := by
  induction cands with
  | nil => rfl
  | cons c rest ih =>
    cases c with
    | none => simpa [tryPhoneFields, firstValidPhone, List.filterMap_cons] using ih
    | some s =>
      by_cases hs : s = ""
      · subst hs
        simpa [tryPhoneFields, firstValidPhone, List.filterMap_cons] using ih
      · cases hn : normalize_phone s with
        | some n =>
          simp [tryPhoneFields, firstValidPhone, List.filterMap_cons, hs, hn]
        | none =>
          simpa [tryPhoneFields, firstValidPhone, List.filterMap_cons, hs, hn] using ih

theorem aggFold_price (ls : List Listing) : ∀ a : Agg,
    (ls.foldl aggStep a).total_price = a.total_price + (posPrices ls).sum ∧
    (ls.foldl aggStep a).price_count = a.price_count + (posPrices ls).length := by
  induction ls with
  | nil => intro a; simp [posPrices]
  | cons l t ih =>
    intro a
    have hstep : (l :: t).foldl aggStep a = t.foldl aggStep (aggStep a l) := rfl
    rw [hstep]
    obtain ⟨ih1, ih2⟩ := ih (aggStep a l)
    cases hp : l.price with
    | none =>
      have ht : (aggStep a l).total_price = a.total_price := by simp [aggStep, hp]
      have hc : (aggStep a l).price_count = a.price_count := by simp [aggStep, hp]
      have hpos : posPrices (l :: t) = posPrices t := by
        simp [posPrices, List.filterMap_cons, hp]
      rw [ih1, ih2, ht, hc, hpos]
      exact ⟨rfl, rfl⟩
    | some p =>
      by_cases h0 : 0 < p
      · have hne : p ≠ 0 := by omega
        have ht : (aggStep a l).total_price = a.total_price + p := by
          simp [aggStep, hp, hne, h0]
        have hc : (aggStep a l).price_count = a.price_count + 1 := by
          simp [aggStep, hp, hne, h0]
        have hpos : posPrices (l :: t) = p :: posPrices t := by
          simp [posPrices, List.filterMap_cons, hp, h0]
        rw [ih1, ih2, ht, hc, hpos]
        constructor
        · simp [List.sum_cons]; ring
        · simp [List.length_cons]; omega
      · have hcond : ¬(¬p = 0 ∧ 0 < p) := by
          rintro ⟨-, hlt⟩
          exact h0 hlt
        have ht : (aggStep a l).total_price = a.total_price := by
          simp only [aggStep, hp]
          rw [if_neg hcond]
        have hc : (aggStep a l).price_count = a.price_count := by
          simp only [aggStep, hp]
          rw [if_neg hcond]
        have hpos : posPrices (l :: t) = posPrices t := by
          simp [posPrices, List.filterMap_cons, hp, h0]
        rw [ih1, ih2, ht, hc, hpos]
        exact ⟨rfl, rfl⟩

theorem buildOwnerData_avg (ls : List Listing) (mt ident : String) (now : Nat) :
    (buildOwnerData ls mt ident now).avg_price_per_night =
      if 0 < (posPrices ls).length then (posPrices ls).sum / ((posPrices ls).length : Int)
      else 0 := by
  obtain ⟨h1, h2⟩ := aggFold_price ls
    { names := [], platforms := [], host_ids := [], total_price := 0, price_count := 0 }
  simp only [buildOwnerData, aggListings]
  rw [h1, h2]
  simp

theorem buildOwnerData_revenue (ls : List Listing) (mt ident : String) (now : Nat) :
    (buildOwnerData ls mt ident now).estimated_monthly_revenue =
      (buildOwnerData ls mt ident now).avg_price_per_night * (ls.length : Int) * 15 := by
  simp only [buildOwnerData]
  set v : Int := if 0 < (aggListings ls).price_count then
      (aggListings ls).total_price / ((aggListings ls).price_count : Int) else 0 with hv
  by_cases h : v = 0
  · rw [if_neg (not_not.mpr h), h]
    ring
  · rw [if_pos h]

theorem upsertLinks_noFault_none (oid : Nat) (mt : String) :
    ∀ (ls : List Listing) (c : Nat) (L : List Link),
      (upsertLinks noFault c L oid mt ls).2.2 = none := by
  intro ls
  induction ls with
  | nil => intro c L; rfl
  | cons l t ih => intro c L; exact ih (c + 1) (upsertLink L (mkLink oid l.id mt))

theorem processLinks_noFault_shape (st : SaveState) (g : OwnerGroup) (oid : Nat) :
    ∃ L c, processLinks noFault st g oid =
      { db := { st.db with links := L },
        stats := { st.stats with
                   total_owners := st.stats.total_owners + 1,
                   multi_property := st.stats.multi_property +
                     (if 1 < g.listings.length then 1 else 0) },
        log := st.log, ctr := c } := by
  rcases hu : upsertLinks noFault st.ctr st.db.links oid g.match_type g.listings
    with ⟨L, c, msg⟩
  have hm : msg = none := by
    have h := upsertLinks_noFault_none oid g.match_type g.listings st.ctr st.db.links
    rw [hu] at h
    exact h
  subst hm
  refine ⟨L, c + 1, ?_⟩
  simp [processLinks, hu, noFault]

theorem processLinks_preserves (fault : Nat → Option String) (st : SaveState)
    (g : OwnerGroup) (oid : Nat) :
    (processLinks fault st g oid).db.owners = st.db.owners ∧
    (processLinks fault st g oid).db.nextId = st.db.nextId ∧
    (processLinks fault st g oid).stats.new_owners = st.stats.new_owners ∧
    (processLinks fault st g oid).stats.updated_owners = st.stats.updated_owners := by
  rcases hu : upsertLinks fault st.ctr st.db.links oid g.match_type g.listings
    with ⟨L, c, msg⟩
  cases msg with
  | some m => simp [processLinks, hu]
  | none =>
    cases hf : fault c with
    | some m => simp [processLinks, hu, hf]
    | none => simp [processLinks, hu, hf]

theorem processAfterLookup_insert (now : Nat) (st : SaveState) (g : OwnerGroup)
    (d : OwnerData) :
    ∃ L c, processAfterLookup noFault now st g d none =
      { db := { owners := st.db.owners ++ [newOwner st.db.nextId d now],
                links := L, nextId := st.db.nextId + 1 },
        stats := { total_owners := st.stats.total_owners + 1,
                   multi_property := st.stats.multi_property +
                     (if 1 < g.listings.length then 1 else 0),
                   new_owners := st.stats.new_owners + 1,
                   updated_owners := st.stats.updated_owners },
        log := st.log, ctr := c } := by
  simp only [processAfterLookup, noFault]
  obtain ⟨L, c, h⟩ := processLinks_noFault_shape
    { st with
      db := { owners := st.db.owners ++ [newOwner st.db.nextId d now],
              links := st.db.links, nextId := st.db.nextId + 1 },
      stats := { st.stats with new_owners := st.stats.new_owners + 1 },
      ctr := st.ctr + 1 }
    g st.db.nextId
  exact ⟨L, c, h⟩

theorem processAfterLookup_update (now : Nat) (st : SaveState) (g : OwnerGroup)
    (d : OwnerData) (o : Owner) :
    ∃ L c, processAfterLookup noFault now st g d (some o) =
      { db := { owners := st.db.owners.map
                  (fun p => if p.id = o.id then applyOwnerData p d else p),
                links := L, nextId := st.db.nextId },
        stats := { total_owners := st.stats.total_owners + 1,
                   multi_property := st.stats.multi_property +
                     (if 1 < g.listings.length then 1 else 0),
                   new_owners := st.stats.new_owners,
                   updated_owners := st.stats.updated_owners + 1 },
        log := st.log, ctr := c } := by
  simp only [processAfterLookup, noFault]
  obtain ⟨L, c, h⟩ := processLinks_noFault_shape
    { st with
      db := { st.db with
              owners := st.db.owners.map
                (fun p => if p.id = o.id then applyOwnerData p d else p) },
      stats := { st.stats with updated_owners := st.stats.updated_owners + 1 },
      ctr := st.ctr + 1 }
    g o.id
  exact ⟨L, c, h⟩

theorem processGroup_phone_reduce (now : Nat) (st : SaveState) (g : OwnerGroup)
    (hmt : g.match_type = "phone") (hid : g.identifier ≠ "") :
    processGroup noFault now st g =
      processAfterLookup noFault now { st with ctr := st.ctr + 1 } g
        (buildOwnerData g.listings g.match_type g.identifier now)
        (lookupExisting st.db g.identifier) := by
  simp [processGroup, hmt, hid, noFault]

theorem processGroup_nonphone_reduce (fault : Nat → Option String) (now : Nat)
    (st : SaveState) (g : OwnerGroup)
    (h : ¬(g.match_type = "phone" ∧ g.identifier ≠ "")) :
    processGroup fault now st g =
      processAfterLookup fault now st g
        (buildOwnerData g.listings g.match_type g.identifier now) none := by
  simp only [processGroup]
  rw [if_neg h]

theorem processGroup_host_shape (now : Nat) (st : SaveState) (g : OwnerGroup)
    (hmt : g.match_type = "host_id") :
    ∃ L c, processGroup noFault now st g =
      { db := { owners := st.db.owners ++
                  [newOwner st.db.nextId
                    (buildOwnerData g.listings g.match_type g.identifier now) now],
                links := L, nextId := st.db.nextId + 1 },
        stats := { total_owners := st.stats.total_owners + 1,
                   multi_property := st.stats.multi_property +
                     (if 1 < g.listings.length then 1 else 0),
                   new_owners := st.stats.new_owners + 1,
                   updated_owners := st.stats.updated_owners },
        log := st.log, ctr := c } := by
  have hne : ¬(g.match_type = "phone" ∧ g.identifier ≠ "") := by
    rintro ⟨h, -⟩
    rw [hmt] at h
    exact absurd h (by decide)
  rw [processGroup_nonphone_reduce noFault now st g hne]
  exact processAfterLookup_insert now st g
    (buildOwnerData g.listings g.match_type g.identifier now)

theorem saveFold_hostonly_length (now : Nat) :
    ∀ gs : List OwnerGroup, (∀ g ∈ gs, g.match_type = "host_id") →
    ∀ st : SaveState,
      (gs.foldl (processGroup noFault now) st).db.owners.length =
        st.db.owners.length + gs.length := by
  intro gs
  induction gs with
  | nil => intro _ st; simp
  | cons g t ih =>
    intro hall st
    have hg : g.match_type = "host_id" := hall g (by simp)
    obtain ⟨L, c, h⟩ := processGroup_host_shape now st g hg
    have ht : ∀ g' ∈ t, g'.match_type = "host_id" := fun g' hg' => hall g' (by simp [hg'])
    calc ((g :: t).foldl (processGroup noFault now) st).db.owners.length
        = (t.foldl (processGroup noFault now) (processGroup noFault now st g)).db.owners.length := rfl
      _ = (processGroup noFault now st g).db.owners.length + t.length := ih ht _
      _ = st.db.owners.length + 1 + t.length := by rw [h]; simp
      _ = st.db.owners.length + (t.length + 1) := by omega
      _ = st.db.owners.length + (g :: t).length := by simp

theorem mem_setInsert_self (xs : List String) (x : String) : x ∈ setInsert xs x := by
  unfold setInsert
  split_ifs with h
  · exact h
  · simp

theorem mem_setInsert_of_mem (xs : List String) (x y : String) (hy : y ∈ xs) :
    y ∈ setInsert xs x := by
  unfold setInsert
  split_ifs with h
  · exact hy
  · simp [hy]

theorem aggStep_hostIds_mono (a : Agg) (l : Listing) (x : String)
    (hx : x ∈ a.host_ids) : x ∈ (aggStep a l).host_ids := by
  simp only [aggStep]
  cases hh : l.host_id with
  | none => simpa [hh] using hx
  | some h =>
    by_cases h0 : h = ""
    · simpa [hh, h0] using hx
    · simpa [hh, h0] using
        mem_setInsert_of_mem a.host_ids (l.platform ++ ":" ++ h) x hx

theorem aggFold_hostIds_mono (ls : List Listing) :
    ∀ (a : Agg) (x : String), x ∈ a.host_ids →
      x ∈ (ls.foldl aggStep a).host_ids := by
  induction ls with
  | nil => intro a x hx; exact hx
  | cons l t ih => intro a x hx; exact ih _ x (aggStep_hostIds_mono a l x hx)

theorem aggFold_hostIds_mem (ls : List Listing) :
    ∀ (a : Agg) (l : Listing), l ∈ ls → ∀ h, l.host_id = some h → h ≠ "" →
      (l.platform ++ ":" ++ h) ∈ (ls.foldl aggStep a).host_ids := by
  induction ls with
  | nil => intro a l hl; cases hl
  | cons l0 t ih =>
    intro a l hl h hh hne
    rcases List.mem_cons.mp hl with rfl | hl
    · refine aggFold_hostIds_mono t _ _ ?_
      simp only [aggStep, hh]
      simpa [hne] using mem_setInsert_self _ (l.platform ++ ":" ++ h)
    · exact ih _ l hl h hh hne

theorem buildOwnerData_hostIds_mem (ls : List Listing) (mt ident : String)
    (now : Nat) (l : Listing) (hl : l ∈ ls) (h : String)
    (hh : l.host_id = some h) (hne : h ≠ "") :
    (l.platform ++ ":" ++ h) ∈ (buildOwnerData ls mt ident now).host_ids := by
  simp only [buildOwnerData]
  exact aggFold_hostIds_mem ls _ l hl h hh hne

theorem applyOwnerData_id (o : Owner) (d : OwnerData) :
    (applyOwnerData o d).id = o.id := rfl

theorem processAfterLookup_keeps (fault : Nat → Option String) (now : Nat)
    (st : SaveState) (g : OwnerGroup) (d : OwnerData) (ex : Option Owner)
    (o : Owner) (ho : o ∈ st.db.owners) (hph : o.primary_phone = none)
    (hnd : (st.db.owners.map (·.id)).Nodup)
    (hlt : ∀ p ∈ st.db.owners, p.id < st.db.nextId)
    (hex : ∀ e, ex = some e → e ∈ st.db.owners ∧ e.primary_phone ≠ none) :
    o ∈ (processAfterLookup fault now st g d ex).db.owners ∧
    ((processAfterLookup fault now st g d ex).db.owners.map (·.id)).Nodup ∧
    (∀ p ∈ (processAfterLookup fault now st g d ex).db.owners,
      p.id < (processAfterLookup fault now st g d ex).db.nextId) := by
  cases ex with
  | none =>
    simp only [processAfterLookup]
    cases hf : fault st.ctr with
    | some m => exact ⟨ho, hnd, hlt⟩
    | none =>
      set st1 : SaveState :=
        { st with
          db := { owners := st.db.owners ++ [newOwner st.db.nextId d now],
                  links := st.db.links, nextId := st.db.nextId + 1 },
          stats := { st.stats with new_owners := st.stats.new_owners + 1 },
          ctr := st.ctr + 1 } with hst1
      obtain ⟨hown, hnid, -, -⟩ :=
        processLinks_preserves fault st1 g st.db.nextId
      rw [hown, hnid]
      refine ⟨List.mem_append_left _ ho, ?_, ?_⟩
      · rw [hst1]
        simp only [List.map_append, List.map_cons, List.map_nil]
        rw [List.nodup_append]
        refine ⟨hnd, List.nodup_singleton _, ?_⟩
        intro a ha hmem
        simp only [newOwner, List.mem_singleton] at hmem
        obtain ⟨p, hp, rfl⟩ := List.mem_map.mp ha
        have := hlt p hp
        omega
      · intro p hp
        rw [hst1] at hp ⊢
        simp only at hp ⊢
        rcases List.mem_append.mp hp with hp | hp
        · have := hlt p hp
          omega
        · simp only [List.mem_singleton] at hp
          subst hp
          simp [newOwner]
  | some e =>
    obtain ⟨he, hephone⟩ := hex e rfl
    have hne : o.id ≠ e.id := by
      intro heq
      have : o = e := List.inj_on_of_nodup_map hnd ho he heq
      rw [this] at hph
      exact hephone hph
    simp only [processAfterLookup]
    cases hf : fault st.ctr with
    | some m => exact ⟨ho, hnd, hlt⟩
    | none =>
      set st1 : SaveState :=
        { st with
          db := { st.db with
                  owners := st.db.owners.map
                    (fun p => if p.id = e.id then applyOwnerData p d else p) },
          stats := { st.stats with updated_owners := st.stats.updated_owners + 1 },
          ctr := st.ctr + 1 } with hst1
      obtain ⟨hown, hnid, -, -⟩ := processLinks_preserves fault st1 g e.id
      rw [hown, hnid]
      have hids : st1.db.owners.map (·.id) = st.db.owners.map (·.id) := by
        rw [hst1]
        simp only [List.map_map]
        refine List.map_congr_left ?_
        intro p hp
        simp only [Function.comp]
        split_ifs with h
        · rfl
        · rfl
      refine ⟨?_, ?_, ?_⟩
      · rw [hst1]
        simp only []
        refine List.mem_map.mpr ⟨o, ho, ?_⟩
        rw [if_neg hne]
      · rw [hids]
        exact hnd
      · intro p hp
        rw [hst1] at hp ⊢
        simp only at hp ⊢
        obtain ⟨q, hq, rfl⟩ := List.mem_map.mp hp
        have := hlt q hq
        split_ifs with h
        · rw [applyOwnerData_id]
          omega
        · omega

theorem processGroup_keeps (fault : Nat → Option String) (now : Nat)
    (st : SaveState) (g : OwnerGroup) (o : Owner)
    (ho : o ∈ st.db.owners) (hph : o.primary_phone = none)
    (hnd : (st.db.owners.map (·.id)).Nodup)
    (hlt : ∀ p ∈ st.db.owners, p.id < st.db.nextId) :
    o ∈ (processGroup fault now st g).db.owners ∧
    ((processGroup fault now st g).db.owners.map (·.id)).Nodup ∧
    (∀ p ∈ (processGroup fault now st g).db.owners,
      p.id < (processGroup fault now st g).db.nextId) := by
  by_cases hc : g.match_type = "phone" ∧ g.identifier ≠ ""
  · simp only [processGroup, if_pos hc]
    cases hf : fault st.ctr with
    | some m => exact ⟨ho, hnd, hlt⟩
    | none =>
      refine processAfterLookup_keeps fault now _ g _ _ o ho hph hnd hlt ?_
      intro e hfind
      refine ⟨List.mem_of_find?_eq_some hfind, ?_⟩
      have := List.find?_some hfind
      simp only [decide_eq_true_eq] at this
      rw [this]
      simp
  · rw [processGroup_nonphone_reduce fault now st g hc]
    exact processAfterLookup_keeps fault now st g _ none o ho hph hnd hlt
      (fun e he => by cases he)

theorem saveFold_keeps (fault : Nat → Option String) (now : Nat) :
    ∀ (gs : List OwnerGroup) (st : SaveState) (o : Owner),
      o ∈ st.db.owners → o.primary_phone = none →
      (st.db.owners.map (·.id)).Nodup →
      (∀ p ∈ st.db.owners, p.id < st.db.nextId) →
      o ∈ (gs.foldl (processGroup fault now) st).db.owners := by
  intro gs
  induction gs with
  | nil => intro st o ho _ _ _; exact ho
  | cons g t ih =>
    intro st o ho hph hnd hlt
    obtain ⟨h1, h2, h3⟩ := processGroup_keeps fault now st g o ho hph hnd hlt
    exact ih _ o h1 hph h2 h3

theorem upsertLinks_fault_oracle (fault : Nat → Option String) (oid : Nat)
    (mt : String) :
    ∀ (ls : List Listing) (c : Nat) (L : List Link) (m : String),
      (upsertLinks fault c L oid mt ls).2.2 = some m → ∃ i, fault i = some m := by
  intro ls
  induction ls with
  | nil => intro c L m h; cases h
  | cons l t ih =>
    intro c L m h
    simp only [upsertLinks] at h
    cases hf : fault c with
    | some msg =>
      rw [hf] at h
      simp only [Option.some.injEq] at h
      exact ⟨c, by rw [hf, h]⟩
    | none =>
      rw [hf] at h
      exact ih (c + 1) (upsertLink L (mkLink oid l.id mt)) m h

theorem processLinks_dichotomy (fault : Nat → Option String) (st : SaveState)
    (g : OwnerGroup) (oid : Nat) :
    ((processLinks fault st g oid).log = st.log ∧
     (processLinks fault st g oid).stats.total_owners = st.stats.total_owners + 1 ∧
     (processLinks fault st g oid).stats.multi_property = st.stats.multi_property +
       (if 1 < g.listings.length then 1 else 0) ∧
     (processLinks fault st g oid).stats.new_owners = st.stats.new_owners ∧
     (processLinks fault st g oid).stats.updated_owners = st.stats.updated_owners) ∨
    (∃ i m, fault i = some m ∧
     (processLinks fault st g oid).log = st.log ++ [errLine m] ∧
     (processLinks fault st g oid).stats = st.stats) := by
  rcases hu : upsertLinks fault st.ctr st.db.links oid g.match_type g.listings
    with ⟨L, c, msg⟩
  cases msg with
  | some m =>
    right
    obtain ⟨i, hi⟩ := upsertLinks_fault_oracle fault oid g.match_type g.listings
      st.ctr st.db.links m (by rw [hu])
    exact ⟨i, m, hi, by simp [processLinks, hu], by simp [processLinks, hu]⟩
  | none =>
    cases hf : fault c with
    | some m =>
      right
      exact ⟨c, m, hf, by simp [processLinks, hu, hf], by simp [processLinks, hu, hf]⟩
    | none =>
      left
      simp [processLinks, hu, hf]

set_option linter.unnecessarySeqFocus false in
theorem processAfterLookup_dichotomy (fault : Nat → Option String) (now : Nat)
    (st : SaveState) (g : OwnerGroup) (d : OwnerData) (ex : Option Owner) :
    ((processAfterLookup fault now st g d ex).log = st.log ∧
     (processAfterLookup fault now st g d ex).stats.total_owners =
       st.stats.total_owners + 1 ∧
     (processAfterLookup fault now st g d ex).stats.multi_property =
       st.stats.multi_property + (if 1 < g.listings.length then 1 else 0) ∧
     (processAfterLookup fault now st g d ex).stats.new_owners +
       (processAfterLookup fault now st g d ex).stats.updated_owners =
       st.stats.new_owners + st.stats.updated_owners + 1) ∨
    (∃ i m, fault i = some m ∧
     (processAfterLookup fault now st g d ex).log = st.log ++ [errLine m] ∧
     (processAfterLookup fault now st g d ex).stats.total_owners =
       st.stats.total_owners ∧
     (processAfterLookup fault now st g d ex).stats.multi_property =
       st.stats.multi_property ∧
     st.stats.new_owners + st.stats.updated_owners ≤
       (processAfterLookup fault now st g d ex).stats.new_owners +
       (processAfterLookup fault now st g d ex).stats.updated_owners ∧
     (processAfterLookup fault now st g d ex).stats.new_owners +
       (processAfterLookup fault now st g d ex).stats.updated_owners ≤
       st.stats.new_owners + st.stats.updated_owners + 1) := by
  cases ex with
  | none =>
    simp only [processAfterLookup]
    cases hf : fault st.ctr with
    | some m => right; exact ⟨st.ctr, m, hf, rfl, rfl, rfl, le_refl _, Nat.le_succ _⟩
    | none =>
      rcases processLinks_dichotomy fault
        { st with
          db := { owners := st.db.owners ++ [newOwner st.db.nextId d now],
                  links := st.db.links, nextId := st.db.nextId + 1 },
          stats := { st.stats with new_owners := st.stats.new_owners + 1 },
          ctr := st.ctr + 1 }
        g st.db.nextId with h | h
      · left
        obtain ⟨h1, h2, h3, h4, h5⟩ := h
        refine ⟨h1, h2, h3, ?_⟩
        rw [h4, h5]
        simp only []
        omega
      · right
        obtain ⟨i, m, hi, hlog, hstats⟩ := h
        refine ⟨i, m, hi, hlog, ?_, ?_, ?_, ?_⟩ <;> rw [hstats] <;> simp <;> omega
  | some o =>
    simp only [processAfterLookup]
    cases hf : fault st.ctr with
    | some m => right; exact ⟨st.ctr, m, hf, rfl, rfl, rfl, le_refl _, Nat.le_succ _⟩
    | none =>
      rcases processLinks_dichotomy fault
        { st with
          db := { st.db with
                  owners := st.db.owners.map
                    (fun p => if p.id = o.id then applyOwnerData p d else p) },
          stats := { st.stats with
                     updated_owners := st.stats.updated_owners + 1 },
          ctr := st.ctr + 1 }
        g o.id with h | h
      · left
        obtain ⟨h1, h2, h3, h4, h5⟩ := h
        refine ⟨h1, h2, h3, ?_⟩
        rw [h4, h5]
        simp only []
        omega
      · right
        obtain ⟨i, m, hi, hlog, hstats⟩ := h
        refine ⟨i, m, hi, hlog, ?_, ?_, ?_, ?_⟩ <;> rw [hstats] <;> simp <;> omega

theorem processGroup_dichotomy (fault : Nat → Option String) (now : Nat)
    (st : SaveState) (g : OwnerGroup) :
    ((processGroup fault now st g).log = st.log ∧
     (processGroup fault now st g).stats.total_owners = st.stats.total_owners + 1 ∧
     (processGroup fault now st g).stats.multi_property = st.stats.multi_property +
       (if 1 < g.listings.length then 1 else 0) ∧
     (processGroup fault now st g).stats.new_owners +
       (processGroup fault now st g).stats.updated_owners =
       st.stats.new_owners + st.stats.updated_owners + 1) ∨
    (∃ i m, fault i = some m ∧
     (processGroup fault now st g).log = st.log ++ [errLine m] ∧
     (processGroup fault now st g).stats.total_owners = st.stats.total_owners ∧
     (processGroup fault now st g).stats.multi_property = st.stats.multi_property ∧
     st.stats.new_owners + st.stats.updated_owners ≤
       (processGroup fault now st g).stats.new_owners +
       (processGroup fault now st g).stats.updated_owners ∧
     (processGroup fault now st g).stats.new_owners +
       (processGroup fault now st g).stats.updated_owners ≤
       st.stats.new_owners + st.stats.updated_owners + 1) := by
  by_cases hc : g.match_type = "phone" ∧ g.identifier ≠ ""
  · simp only [processGroup, if_pos hc]
    cases hf : fault st.ctr with
    | some m => right; exact ⟨st.ctr, m, hf, rfl, rfl, rfl, le_refl _, Nat.le_succ _⟩
    | none =>
      exact processAfterLookup_dichotomy fault now { st with ctr := st.ctr + 1 } g
        (buildOwnerData g.listings g.match_type g.identifier now)
        (lookupExisting st.db g.identifier)
  · rw [processGroup_nonphone_reduce fault now st g hc]
    exact processAfterLookup_dichotomy fault now st g
      (buildOwnerData g.listings g.match_type g.identifier now) none

theorem saveFold_stats (fault : Nat → Option String) (now : Nat) :
    ∀ (gs : List OwnerGroup) (st : SaveState),
      (gs.foldl (processGroup fault now) st).stats.total_owners +
        (gs.foldl (processGroup fault now) st).log.length =
        st.stats.total_owners + st.log.length + gs.length ∧
      st.stats.new_owners + st.stats.updated_owners ≤
        (gs.foldl (processGroup fault now) st).stats.new_owners +
        (gs.foldl (processGroup fault now) st).stats.updated_owners ∧
      (gs.foldl (processGroup fault now) st).stats.new_owners +
        (gs.foldl (processGroup fault now) st).stats.updated_owners ≤
        st.stats.new_owners + st.stats.updated_owners + gs.length ∧
      (st.stats.total_owners ≤ st.stats.new_owners + st.stats.updated_owners →
        (gs.foldl (processGroup fault now) st).stats.total_owners ≤
        (gs.foldl (processGroup fault now) st).stats.new_owners +
        (gs.foldl (processGroup fault now) st).stats.updated_owners) ∧
      (st.stats.multi_property ≤ st.stats.total_owners →
        (gs.foldl (processGroup fault now) st).stats.multi_property ≤
        (gs.foldl (processGroup fault now) st).stats.total_owners) ∧
      (∀ e ∈ (gs.foldl (processGroup fault now) st).log,
        e ∈ st.log ∨ ∃ i m, fault i = some m ∧ e = errLine m) := by
  intro gs
  induction gs with
  | nil =>
    intro st
    exact ⟨by simp, le_refl _, by simp, fun h => h, fun h => h,
      fun e he => Or.inl he⟩
  | cons g t ih =>
    intro st
    obtain ⟨ih1, ih2, ih3, ih4, ihm, ih5⟩ := ih (processGroup fault now st g)
    have hstep : (g :: t).foldl (processGroup fault now) st =
        t.foldl (processGroup fault now) (processGroup fault now st g) := rfl
    rw [hstep]
    simp only [List.length_cons]
    rcases processGroup_dichotomy fault now st g with
      ⟨h1, h2, h3, h4⟩ | ⟨i, m, hi, h1, h2, h3, h4, h5⟩
    · have hlog : (processGroup fault now st g).log.length = st.log.length := by
        rw [h1]
      have hite : (if 1 < g.listings.length then 1 else 0) ≤ 1 := by
        split_ifs <;> omega
      refine ⟨by omega, by omega, by omega, fun hle => ih4 (by omega),
        fun hle => ihm (by omega), ?_⟩
      intro e he
      rcases ih5 e he with he2 | he2
      · rw [h1] at he2
        exact Or.inl he2
      · exact Or.inr he2
    · have hlog : (processGroup fault now st g).log.length = st.log.length + 1 := by
        rw [h1]
        simp
      refine ⟨by omega, by omega, by omega, fun hle => ih4 (by omega),
        fun hle => ihm (by omega), ?_⟩
      intro e he
      rcases ih5 e he with he2 | he2
      · rw [h1] at he2
        rcases List.mem_append.mp he2 with h | h
        · exact Or.inl h
        · simp only [List.mem_singleton] at h
          exact Or.inr ⟨i, m, hi, h⟩
      · exact Or.inr he2

theorem keys_addToGroup (k : String) (v : Listing) :
    ∀ m : List (String × List Listing),
      (addToGroup k v m).map Prod.fst =
        if k ∈ m.map Prod.fst then m.map Prod.fst else m.map Prod.fst ++ [k] := by
  intro m
  induction m with
  | nil => simp [addToGroup]
  | cons p rest ih =>
    obtain ⟨k1, vs⟩ := p
    by_cases hk : k1 = k
    · subst hk
      simp [addToGroup]
    · simp only [addToGroup, if_neg hk, List.map_cons, ih]
      by_cases hmem : k ∈ rest.map Prod.fst
      · rw [if_pos hmem, if_pos (by simp [hmem])]
      · rw [if_neg hmem, if_neg (by simp [hmem, Ne.symm hk])]
        simp

theorem mem_addToGroup (k : String) (v : Listing) :
    ∀ m p, p ∈ addToGroup k v m →
      p ∈ m ∨ (p.1 = k ∧ (p.2 = [v] ∨ ∃ vs, (k, vs) ∈ m ∧ p.2 = vs ++ [v])) := by
  intro m
  induction m with
  | nil =>
    intro p hp
    simp only [addToGroup, List.mem_singleton] at hp
    subst hp
    exact Or.inr ⟨rfl, Or.inl rfl⟩
  | cons q rest ih =>
    intro p hp
    obtain ⟨k1, vs⟩ := q
    by_cases hk : k1 = k
    · subst hk
      have hstep : addToGroup k1 v ((k1, vs) :: rest) = (k1, vs ++ [v]) :: rest := by
        simp [addToGroup]
      rw [hstep] at hp
      rcases List.mem_cons.mp hp with heq | hp
      · rw [heq]
        exact Or.inr ⟨rfl, Or.inr ⟨vs, List.mem_cons_self _ _, rfl⟩⟩
      · exact Or.inl (List.mem_cons_of_mem _ hp)
    · have hstep : addToGroup k v ((k1, vs) :: rest) = (k1, vs) :: addToGroup k v rest := by
        simp [addToGroup, hk]
      rw [hstep] at hp
      rcases List.mem_cons.mp hp with heq | hp
      · rw [heq]
        exact Or.inl (List.mem_cons_self _ _)
      · rcases ih p hp with h | ⟨h1, h2⟩
        · exact Or.inl (List.mem_cons_of_mem _ h)
        · rcases h2 with h2 | ⟨vs2, hvs2, h2⟩
          · exact Or.inr ⟨h1, Or.inl h2⟩
          · exact Or.inr ⟨h1, Or.inr ⟨vs2, List.mem_cons_of_mem _ hvs2, h2⟩⟩

theorem ginv_add (P : Listing → String → Prop)
    (m : List (String × List Listing)) (k : String) (v : Listing)
    (hm : GroupMapInv P m) (hv : P v k) : GroupMapInv P (addToGroup k v m) := by
  obtain ⟨hkeys, hmem⟩ := hm
  constructor
  · rw [keys_addToGroup]
    split_ifs with h
    · exact hkeys
    · rw [List.nodup_append]
      refine ⟨hkeys, List.nodup_singleton _, ?_⟩
      intro a ha hb
      simp only [List.mem_singleton] at hb
      subst hb
      exact h ha
  · intro p hp
    rcases mem_addToGroup k v m p hp with h | ⟨h1, h2⟩
    · exact hmem p h
    · rcases h2 with h2 | ⟨vs, hvs, h2⟩
      · refine ⟨by simp [h2], ?_⟩
        intro w hw
        rw [h2] at hw
        simp only [List.mem_singleton] at hw
        subst hw
        rw [h1]
        exact hv
      · refine ⟨by simp [h2], ?_⟩
        intro w hw
        rw [h2] at hw
        rcases List.mem_append.mp hw with hw | hw
        · have := (hmem _ hvs).2 w hw
          rw [h1]
          exact this
        · simp only [List.mem_singleton] at hw
          subst hw
          rw [h1]
          exact hv

theorem ginv_fold (P : Listing → String → Prop) (f : Listing → Option String) :
    ∀ (ls : List Listing) (m : List (String × List Listing)),
      GroupMapInv P m → (∀ l ∈ ls, ∀ k, f l = some k → P l k) →
      GroupMapInv P (ls.foldl
        (fun m l =>
          match f l with
          | some k => addToGroup k l m
          | none => m) m) := by
  intro ls
  induction ls with
  | nil => intro m hm _; exact hm
  | cons l t ih =>
    intro m hm hls
    have ht : ∀ l' ∈ t, ∀ k, f l' = some k → P l' k :=
      fun l' hl' => hls l' (List.mem_cons_of_mem _ hl')
    cases hf : f l with
    | none => simpa [hf] using ih m hm ht
    | some k =>
      have step : (l :: t).foldl
          (fun m l =>
            match f l with
            | some k => addToGroup k l m
            | none => m) m =
          t.foldl
            (fun m l =>
              match f l with
              | some k => addToGroup k l m
              | none => m) (addToGroup k l m) := by
        simp [List.foldl_cons, hf]
      rw [step]
      exact ih _ (ginv_add P m k l hm (hls l (List.mem_cons_self _ _) k hf)) ht

theorem ginv_groupByKey (f : Listing → Option String) (ls : List Listing) :
    GroupMapInv (fun v k => v ∈ ls ∧ f v = some k) (groupByKey f ls) := by
  refine ginv_fold _ f ls [] ⟨List.nodup_nil, by simp⟩ ?_
  intro l hl k hk
  exact ⟨hl, hk⟩

theorem phonePass_general :
    ∀ (m : List (String × List Listing)), (∀ p ∈ m, p.2 ≠ []) →
      ∀ acc : List OwnerGroup × List Nat,
        m.foldl phoneStep acc =
          (acc.1 ++ m.map phoneGroupOf,
           acc.2 ++ (m.map (fun kv => kv.2.map (·.id))).flatten) := by
  intro m
  induction m with
  | nil => intro _ acc; simp
  | cons kv t ih =>
    intro h acc
    have hne : kv.2 ≠ [] := h kv (List.mem_cons_self _ _)
    have hlen : 1 ≤ kv.2.length := List.length_pos.mpr hne
    have step : (kv :: t).foldl phoneStep acc =
        t.foldl phoneStep (acc.1 ++ [phoneGroupOf kv], acc.2 ++ kv.2.map (·.id)) := by
      simp [List.foldl_cons, phoneStep, hlen]
    rw [step, ih (fun p hp => h p (List.mem_cons_of_mem _ hp))]
    simp

theorem phone_groups_pairwise (listings : List Listing)
    (hnd : (listings.map (·.id)).Nodup) :
    ((groupByKey extract_phone_from_listing listings).map phoneGroupOf).Pairwise
      (fun a b => a.listing_ids.Disjoint b.listing_ids) := by
  obtain ⟨hkeys, hmem⟩ := ginv_groupByKey extract_phone_from_listing listings
  rw [List.pairwise_map]
  have hpair : (groupByKey extract_phone_from_listing listings).Pairwise
      (fun a b => a.1 ≠ b.1) := List.pairwise_map.mp hkeys
  refine hpair.imp_of_mem ?_
  intro a b ha hb hne
  intro lid hla hlb
  obtain ⟨v, hv, hvid⟩ := List.mem_map.mp hla
  obtain ⟨w, hw, hwid⟩ := List.mem_map.mp hlb
  obtain ⟨hvls, hvk⟩ := (hmem a ha).2 v hv
  obtain ⟨hwls, hwk⟩ := (hmem b hb).2 w hw
  have hvw : v = w := List.inj_on_of_nodup_map hnd hvls hwls (by rw [hvid, hwid])
  apply hne
  rw [hvw] at hvk
  rw [hvk] at hwk
  exact Option.some_inj.mp hwk

theorem hostPass_inv :
    ∀ (byHost : List (String × List Listing)) (gs : List OwnerGroup)
      (pr : List Nat),
      gs.Pairwise (fun a b => a.listing_ids.Disjoint b.listing_ids) →
      (∀ g ∈ gs, ∀ lid ∈ g.listing_ids, lid ∈ pr) →
      (∀ g ∈ gs, g.listing_ids ≠ []) →
      (∀ g ∈ gs, ∀ l ∈ g.listings, l.id ∈ g.listing_ids) →
      (hostPass byHost (gs, pr)).1.Pairwise
        (fun a b => a.listing_ids.Disjoint b.listing_ids) ∧
      (∀ g ∈ (hostPass byHost (gs, pr)).1,
        ∀ lid ∈ g.listing_ids, lid ∈ (hostPass byHost (gs, pr)).2) ∧
      (∀ g ∈ (hostPass byHost (gs, pr)).1, g.listing_ids ≠ []) ∧
      (∀ g ∈ (hostPass byHost (gs, pr)).1, ∀ l ∈ g.listings,
        l.id ∈ g.listing_ids) := by
  intro byHost
  induction byHost with
  | nil => intro gs pr h1 h2 h3 h4; exact ⟨h1, h2, h3, h4⟩
  | cons kv t ih =>
    intro gs pr h1 h2 h3 h4
    have hstep : hostPass (kv :: t) (gs, pr) = hostPass t (hostStep (gs, pr) kv) := rfl
    rw [hstep]
    set new_ids : List Nat :=
      (kv.2.map (·.id)).filter (fun lid => decide (lid ∉ pr)) with hnew
    by_cases hni : new_ids ≠ []
    · set new_listings : List Listing :=
        kv.2.filter (fun l => decide (l.id ∈ new_ids)) with hnl
      by_cases hnl2 : new_listings ≠ []
      · have hred : hostStep (gs, pr) kv =
            (gs ++ [{ match_type := "host_id", identifier := kv.1,
                      listings := new_listings, listing_ids := new_ids }],
             pr ++ new_ids) := by
          simp only [hostStep, ← hnew, ← hnl]
          rw [if_pos hni, if_pos hnl2]
        rw [hred]
        have hfresh : ∀ lid ∈ new_ids, lid ∉ pr := by
          intro lid hl
          have := List.of_mem_filter hl
          simpa using this
        refine ih _ _ ?_ ?_ ?_ ?_
        · rw [List.pairwise_append]
          refine ⟨h1, List.pairwise_singleton _ _, ?_⟩
          intro a ha b hb
          simp only [List.mem_singleton] at hb
          subst hb
          intro lid hla hlb
          exact hfresh lid hlb (h2 a ha lid hla)
        · intro g hg lid hl
          rcases List.mem_append.mp hg with hg | hg
          · exact List.mem_append_left _ (h2 g hg lid hl)
          · simp only [List.mem_singleton] at hg
            subst hg
            exact List.mem_append_right _ hl
        · intro g hg
          rcases List.mem_append.mp hg with hg | hg
          · exact h3 g hg
          · simp only [List.mem_singleton] at hg
            subst hg
            exact hni
        · intro g hg l hl
          rcases List.mem_append.mp hg with hg | hg
          · exact h4 g hg l hl
          · simp only [List.mem_singleton] at hg
            subst hg
            simp only at hl ⊢
            have := List.of_mem_filter hl
            simpa using this
      · have hred : hostStep (gs, pr) kv = (gs, pr) := by
          simp only [hostStep, ← hnew, ← hnl]
          rw [if_pos hni, if_neg hnl2]
        rw [hred]
        exact ih _ _ h1 h2 h3 h4
    · have hred : hostStep (gs, pr) kv = (gs, pr) := by
        simp only [hostStep, ← hnew]
        rw [if_neg hni]
      rw [hred]
      exact ih _ _ h1 h2 h3 h4

theorem build_groups_invariants (listings : List Listing)
    (hnd : (listings.map (·.id)).Nodup) :
    (build_owner_groups listings).Pairwise
      (fun a b => a.listing_ids.Disjoint b.listing_ids) ∧
    (∀ g ∈ build_owner_groups listings, g.listing_ids ≠ []) ∧
    (∀ g ∈ build_owner_groups listings, ∀ l ∈ g.listings,
      l.id ∈ g.listing_ids) := by
  obtain ⟨hkeys, hmem⟩ := ginv_groupByKey extract_phone_from_listing listings
  have hne : ∀ p ∈ groupByKey extract_phone_from_listing listings, p.2 ≠ [] :=
    fun p hp => (hmem p hp).1
  have hpp : phonePass (groupByKey extract_phone_from_listing listings) =
      ((groupByKey extract_phone_from_listing listings).map phoneGroupOf,
       ((groupByKey extract_phone_from_listing listings).map
         (fun kv => kv.2.map (·.id))).flatten) := by
    have h := phonePass_general (groupByKey extract_phone_from_listing listings)
      hne ([], [])
    simpa [phonePass] using h
  have hbuild : build_owner_groups listings =
      (hostPass (groupByKey hostKey listings)
        (phonePass (groupByKey extract_phone_from_listing listings))).1 := rfl
  rw [hbuild, hpp]
  have hinv := hostPass_inv (groupByKey hostKey listings)
    ((groupByKey extract_phone_from_listing listings).map phoneGroupOf)
    (((groupByKey extract_phone_from_listing listings).map
      (fun kv => kv.2.map (·.id))).flatten)
    (phone_groups_pairwise listings hnd)
    (by
      intro g hg lid hl
      obtain ⟨kv, hkv, hpg⟩ := List.mem_map.mp hg
      rw [← hpg] at hl
      simp only [phoneGroupOf] at hl
      rw [List.mem_flatten]
      exact ⟨kv.2.map (·.id), List.mem_map_of_mem _ hkv, hl⟩)
    (by
      intro g hg
      obtain ⟨kv, hkv, hpg⟩ := List.mem_map.mp hg
      rw [← hpg]
      simp only [phoneGroupOf]
      simpa using hne kv hkv)
    (by
      intro g hg l hl
      obtain ⟨kv, hkv, hpg⟩ := List.mem_map.mp hg
      rw [← hpg] at hl ⊢
      simp only [phoneGroupOf] at hl ⊢
      exact List.mem_map_of_mem _ hl)
  exact ⟨hinv.1, hinv.2.2.1, hinv.2.2.2⟩

theorem countP_map_eq (q : Link → Bool) (f : Link → Link) :
    ∀ L : List Link, (∀ l ∈ L, q (f l) = q l) →
      (L.map f).countP q = L.countP q := by
  intro L
  induction L with
  | nil => intro _; rfl
  | cons l t ih =>
    intro h
    simp only [List.map_cons, List.countP_cons]
    rw [ih (fun x hx => h x (List.mem_cons_of_mem _ hx)),
      h l (List.mem_cons_self _ _)]

theorem upsertLinks_count_inv (fault : Nat → Option String) (oid : Nat)
    (mt : String) (gids : List Nat) :
    ∀ (ls : List Listing) (c : Nat) (L : List Link),
      (∀ x ∈ ls, x.id ∈ gids) →
      (∀ lid, L.countP (fun l => decide (l.scraped_listing_id = lid)) ≤ 1) →
      (∀ l ∈ L, l.scraped_listing_id ∈ gids → l.owner_id = oid) →
      (∀ lid, (upsertLinks fault c L oid mt ls).1.countP
        (fun l => decide (l.scraped_listing_id = lid)) ≤ 1) ∧
      (∀ l ∈ (upsertLinks fault c L oid mt ls).1,
        l ∈ L ∨ l.scraped_listing_id ∈ gids) := by
  intro ls
  induction ls with
  | nil =>
    intro c L _ hcount _
    exact ⟨hcount, fun l hl => Or.inl hl⟩
  | cons x xs ih =>
    intro c L hls hcount hown
    have hx : x.id ∈ gids := hls x (List.mem_cons_self _ _)
    have hxs : ∀ y ∈ xs, y.id ∈ gids :=
      fun y hy => hls y (List.mem_cons_of_mem _ hy)
    simp only [upsertLinks]
    cases hf : fault c with
    | some m => exact ⟨hcount, fun l hl => Or.inl hl⟩
    | none =>
      set d : Link := mkLink oid x.id mt with hd
      have hdid : d.scraped_listing_id = x.id := rfl
      have hdo : d.owner_id = oid := rfl
      by_cases hany : L.any (fun l =>
          decide (l.owner_id = d.owner_id ∧
            l.scraped_listing_id = d.scraped_listing_id)) = true
      · have hup : upsertLink L d = L.map (fun l =>
            if l.owner_id = d.owner_id ∧
              l.scraped_listing_id = d.scraped_listing_id then d else l) := by
          simp only [upsertLink, if_pos hany]
        have hcount2 : ∀ lid, (upsertLink L d).countP
            (fun l => decide (l.scraped_listing_id = lid)) ≤ 1 := by
          intro lid
          rw [hup, countP_map_eq]
          · exact hcount lid
          · intro l hl
            split_ifs with hkey
            · rw [hkey.2]
            · rfl
        have hown2 : ∀ l ∈ upsertLink L d,
            l.scraped_listing_id ∈ gids → l.owner_id = oid := by
          intro l hl hlid
          rw [hup] at hl
          obtain ⟨p, hp, hpl⟩ := List.mem_map.mp hl
          by_cases hkey : p.owner_id = d.owner_id ∧
              p.scraped_listing_id = d.scraped_listing_id
          · rw [if_pos hkey] at hpl
            rw [← hpl]
            exact hdo
          · rw [if_neg hkey] at hpl
            rw [← hpl]
            exact hown p hp (by rw [hpl]; exact hlid)
        obtain ⟨hc, hm⟩ := ih (c + 1) (upsertLink L d) hxs hcount2 hown2
        refine ⟨hc, ?_⟩
        intro l hl
        rcases hm l hl with hl2 | hl2
        · rw [hup] at hl2
          obtain ⟨p, hp, hpl⟩ := List.mem_map.mp hl2
          by_cases hkey : p.owner_id = d.owner_id ∧
              p.scraped_listing_id = d.scraped_listing_id
          · rw [if_pos hkey] at hpl
            right
            rw [← hpl, hdid]
            exact hx
          · rw [if_neg hkey] at hpl
            left
            rw [← hpl]
            exact hp
        · exact Or.inr hl2
      · have hup : upsertLink L d = L ++ [d] := by
          simp only [upsertLink, if_neg hany]
        have hfresh : L.countP
            (fun l => decide (l.scraped_listing_id = x.id)) = 0 := by
          rw [List.countP_eq_zero]
          intro l hl
          simp only [decide_eq_true_eq]
          intro heq
          apply hany
          rw [List.any_eq_true]
          refine ⟨l, hl, ?_⟩
          simp only [decide_eq_true_eq]
          exact ⟨by rw [hown l hl (heq ▸ hx), hdo], by rw [heq, hdid]⟩
        have hcount2 : ∀ lid, (upsertLink L d).countP
            (fun l => decide (l.scraped_listing_id = lid)) ≤ 1 := by
          intro lid
          rw [hup, List.countP_append]
          by_cases hlid : lid = x.id
          · subst hlid
            rw [hfresh]
            have hle : List.countP
                (fun l => decide (l.scraped_listing_id = x.id)) [d] ≤ 1 := by
              rw [List.countP_cons]
              simp [hdid]
            omega
          · have h2 := hcount lid
            have : List.countP (fun l => decide (l.scraped_listing_id = lid)) [d]
                = 0 := by
              rw [List.countP_eq_zero]
              intro l hl
              simp only [List.mem_singleton] at hl
              subst hl
              simp only [decide_eq_true_eq]
              rw [hdid]
              exact fun h => hlid h.symm
            omega
        have hown2 : ∀ l ∈ upsertLink L d,
            l.scraped_listing_id ∈ gids → l.owner_id = oid := by
          intro l hl hlid
          rw [hup] at hl
          rcases List.mem_append.mp hl with hl2 | hl2
          · exact hown l hl2 hlid
          · simp only [List.mem_singleton] at hl2
            subst hl2
            exact hdo
        obtain ⟨hc, hm⟩ := ih (c + 1) (upsertLink L d) hxs hcount2 hown2
        refine ⟨hc, ?_⟩
        intro l hl
        rcases hm l hl with hl2 | hl2
        · rw [hup] at hl2
          rcases List.mem_append.mp hl2 with hl3 | hl3
          · exact Or.inl hl3
          · simp only [List.mem_singleton] at hl3
            subst hl3
            right
            rw [hdid]
            exact hx
        · exact Or.inr hl2

theorem processLinks_links (fault : Nat → Option String) (st : SaveState)
    (g : OwnerGroup) (oid : Nat) :
    (processLinks fault st g oid).db.links =
      (upsertLinks fault st.ctr st.db.links oid g.match_type g.listings).1 := by
  rcases hu : upsertLinks fault st.ctr st.db.links oid g.match_type g.listings
    with ⟨L, c, msg⟩
  cases msg with
  | some m => simp [processLinks, hu]
  | none =>
    cases hf : fault c with
    | some m => simp [processLinks, hu, hf]
    | none => simp [processLinks, hu, hf]

theorem processGroup_links_cases (fault : Nat → Option String) (now : Nat)
    (st : SaveState) (g : OwnerGroup) :
    (processGroup fault now st g).db.links = st.db.links ∨
    ∃ oid c, (processGroup fault now st g).db.links =
      (upsertLinks fault c st.db.links oid g.match_type g.listings).1 := by
  by_cases hc : g.match_type = "phone" ∧ g.identifier ≠ ""
  · simp only [processGroup, if_pos hc]
    cases hf : fault st.ctr with
    | some m => left; rfl
    | none =>
      cases hex : lookupExisting st.db g.identifier with
      | none =>
        simp only [processAfterLookup]
        cases hf2 : fault (st.ctr + 1) with
        | some m => left; rfl
        | none =>
          right
          refine ⟨st.db.nextId, st.ctr + 2, ?_⟩
          exact processLinks_links fault _ g st.db.nextId
      | some o =>
        simp only [processAfterLookup]
        cases hf2 : fault (st.ctr + 1) with
        | some m => left; rfl
        | none =>
          right
          refine ⟨o.id, st.ctr + 2, ?_⟩
          exact processLinks_links fault _ g o.id
  · rw [processGroup_nonphone_reduce fault now st g hc]
    simp only [processAfterLookup]
    cases hf : fault st.ctr with
    | some m => left; rfl
    | none =>
      right
      refine ⟨st.db.nextId, st.ctr + 1, ?_⟩
      exact processLinks_links fault _ g st.db.nextId

theorem saveFold_links (fault : Nat → Option String) (now : Nat) :
    ∀ (gs : List OwnerGroup) (st : SaveState),
      gs.Pairwise (fun a b => a.listing_ids.Disjoint b.listing_ids) →
      (∀ g ∈ gs, ∀ l ∈ g.listings, l.id ∈ g.listing_ids) →
      (∀ lid, st.db.links.countP
        (fun l => decide (l.scraped_listing_id = lid)) ≤ 1) →
      (∀ l ∈ st.db.links, ∀ g ∈ gs, l.scraped_listing_id ∉ g.listing_ids) →
      ∀ lid, (gs.foldl (processGroup fault now) st).db.links.countP
        (fun l => decide (l.scraped_listing_id = lid)) ≤ 1 := by
  intro gs
  induction gs with
  | nil => intro st _ _ hcount _ lid; exact hcount lid
  | cons g t ih =>
    intro st hpair hsub hcount hfresh
    obtain ⟨hg, hpt⟩ := List.pairwise_cons.mp hpair
    have hstep : (g :: t).foldl (processGroup fault now) st =
        t.foldl (processGroup fault now) (processGroup fault now st g) := rfl
    rw [hstep]
    rcases processGroup_links_cases fault now st g with heq | ⟨oid, c, heq⟩
    · refine ih _ hpt (fun g' hg' => hsub g' (List.mem_cons_of_mem _ hg')) ?_ ?_
      · intro lid
        rw [heq]
        exact hcount lid
      · intro l hl g' hg'
        rw [heq] at hl
        exact hfresh l hl g' (List.mem_cons_of_mem _ hg')
    · obtain ⟨hc2, hm⟩ := upsertLinks_count_inv fault oid g.match_type
        g.listing_ids g.listings c st.db.links
        (hsub g (List.mem_cons_self _ _))
        hcount
        (fun l hl hlid =>
          absurd hlid (hfresh l hl g (List.mem_cons_self _ _)))
      refine ih _ hpt (fun g' hg' => hsub g' (List.mem_cons_of_mem _ hg')) ?_ ?_
      · intro lid
        rw [heq]
        exact hc2 lid
      · intro l hl g' hg'
        rw [heq] at hl
        rcases hm l hl with hl2 | hl2
        · exact hfresh l hl2 g' (List.mem_cons_of_mem _ hg')
        · exact fun hmem => hg g' hg' hl2 hmem

theorem apply_refresh (i now1 now2 : Nat) (ls : List Listing)
    (mt ident : String) (hmt : mt = "phone") :
    applyOwnerData (newOwner i (buildOwnerData ls mt ident now1) now1)
      (buildOwnerData ls mt ident now2) =
    touchLastSeen now2 (newOwner i (buildOwnerData ls mt ident now1) now1) := by
  subst hmt
  simp [applyOwnerData, newOwner, buildOwnerData, touchLastSeen]

theorem upsertLink_id (L : List Link) (d : Link)
    (hex : ∃ l ∈ L, l.owner_id = d.owner_id ∧
      l.scraped_listing_id = d.scraped_listing_id)
    (huniq : ∀ l ∈ L, l.owner_id = d.owner_id ∧
      l.scraped_listing_id = d.scraped_listing_id → l = d) :
    upsertLink L d = L := by
  obtain ⟨l0, hl0, hkey0⟩ := hex
  have hany : L.any (fun l => decide (l.owner_id = d.owner_id ∧
      l.scraped_listing_id = d.scraped_listing_id)) = true := by
    rw [List.any_eq_true]
    exact ⟨l0, hl0, by simpa using hkey0⟩
  simp only [upsertLink, if_pos hany]
  have : ∀ l ∈ L, (if l.owner_id = d.owner_id ∧
      l.scraped_listing_id = d.scraped_listing_id then d else l) = l := by
    intro l hl
    split_ifs with hkey
    · exact (huniq l hl hkey).symm
    · rfl
  rw [List.map_congr_left this]
  simp

theorem upsertLinks_id (oid : Nat) (mt : String) :
    ∀ (ls : List Listing) (c : Nat) (L : List Link),
      (∀ x ∈ ls, mkLink oid x.id mt ∈ L) →
      L.Pairwise (fun a b => ¬ sameLinkKey a b) →
      upsertLinks noFault c L oid mt ls = (L, c + ls.length, none) := by
  intro ls
  induction ls with
  | nil => intro c L _ _; rfl
  | cons x xs ih =>
    intro c L hin hpw
    have hd : mkLink oid x.id mt ∈ L := hin x (List.mem_cons_self _ _)
    have hsym : Symmetric (fun a b : Link => ¬ sameLinkKey a b) := by
      intro a b h hk
      exact h ⟨hk.1.symm, hk.2.symm⟩
    have hid : upsertLink L (mkLink oid x.id mt) = L := by
      refine upsertLink_id L _ ⟨mkLink oid x.id mt, hd, rfl, rfl⟩ ?_
      intro l hl hkey
      by_cases hne : l = mkLink oid x.id mt
      · exact hne
      · exact absurd ⟨hkey.1, hkey.2⟩ (hpw.forall hsym hl hd hne)
    have hstep : upsertLinks noFault c L oid mt (x :: xs) =
        upsertLinks noFault (c + 1) L oid mt xs := by
      simp only [upsertLinks, noFault, hid]
    rw [hstep, ih (c + 1) L (fun y hy => hin y (List.mem_cons_of_mem _ hy)) hpw]
    have harith : c + 1 + xs.length = c + (x :: xs).length := by
      simp only [List.length_cons]
      omega
    rw [harith]

theorem upsertLinks_fresh_append (oid : Nat) (mt : String) :
    ∀ (ls : List Listing) (c : Nat) (L : List Link),
      (∀ l ∈ L, l.owner_id = oid → l.scraped_listing_id ∉ ls.map (·.id)) →
      (ls.map (·.id)).Nodup →
      upsertLinks noFault c L oid mt ls =
        (L ++ ls.map (fun x => mkLink oid x.id mt), c + ls.length, none) := by
  intro ls
  induction ls with
  | nil => intro c L _ _; simp [upsertLinks]
  | cons x xs ih =>
    intro c L hfresh hnd
    have hany : L.any (fun l => decide (l.owner_id = (mkLink oid x.id mt).owner_id ∧
        l.scraped_listing_id = (mkLink oid x.id mt).scraped_listing_id)) = false := by
      rw [List.any_eq_false]
      intro l hl
      simp only [decide_eq_true_eq, not_and]
      intro ho hs
      exact hfresh l hl ho (by rw [hs]; simp [mkLink])
    have hup : upsertLink L (mkLink oid x.id mt) = L ++ [mkLink oid x.id mt] := by
      simp only [upsertLink]
      rw [if_neg (by rw [hany]; exact Bool.false_ne_true)]
    have hstep : upsertLinks noFault c L oid mt (x :: xs) =
        upsertLinks noFault (c + 1) (L ++ [mkLink oid x.id mt]) oid mt xs := by
      simp only [upsertLinks, noFault, hup]
    rw [hstep]
    have hnd0 : x.id ∉ xs.map (·.id) ∧ (xs.map (·.id)).Nodup := by
      rw [List.map_cons] at hnd
      exact List.nodup_cons.mp hnd
    have hfresh2 : ∀ l ∈ L ++ [mkLink oid x.id mt], l.owner_id = oid →
        l.scraped_listing_id ∉ xs.map (·.id) := by
      intro l hl ho
      rcases List.mem_append.mp hl with hl2 | hl2
      · intro hmem
        exact hfresh l hl2 ho (by simp [hmem])
      · simp only [List.mem_singleton] at hl2
        subst hl2
        simp only [mkLink]
        exact hnd0.1
    have hnd2 : (xs.map (·.id)).Nodup := hnd0.2
    rw [ih (c + 1) _ hfresh2 hnd2]
    have harith : c + 1 + xs.length = c + (x :: xs).length := by
      simp only [List.length_cons]
      omega
    rw [harith]
    simp

theorem processLinks_exact (st : SaveState) (g : OwnerGroup) (oid : Nat)
    (L : List Link) (c : Nat)
    (hup : upsertLinks noFault st.ctr st.db.links oid g.match_type g.listings =
      (L, c, none)) :
    processLinks noFault st g oid =
      { db := { st.db with links := L },
        stats := { st.stats with
                   total_owners := st.stats.total_owners + 1,
                   multi_property := st.stats.multi_property +
                     (if 1 < g.listings.length then 1 else 0) },
        log := st.log, ctr := c + 1 } := by
  simp [processLinks, hup, noFault]

theorem processGroup_phone_insert_exact (now : Nat) (st : SaveState)
    (g : OwnerGroup) (hmt : g.match_type = "phone") (hid : g.identifier ≠ "")
    (hnone : lookupExisting st.db g.identifier = none)
    (hfresh : ∀ l ∈ st.db.links, l.owner_id ≠ st.db.nextId)
    (hndids : (g.listings.map (·.id)).Nodup) :
    ∃ c, processGroup noFault now st g =
      { db := { owners := st.db.owners ++
                  [newOwner st.db.nextId
                    (buildOwnerData g.listings g.match_type g.identifier now) now],
                links := st.db.links ++
                  g.listings.map (fun x => mkLink st.db.nextId x.id g.match_type),
                nextId := st.db.nextId + 1 },
        stats := { total_owners := st.stats.total_owners + 1,
                   multi_property := st.stats.multi_property +
                     (if 1 < g.listings.length then 1 else 0),
                   new_owners := st.stats.new_owners + 1,
                   updated_owners := st.stats.updated_owners },
        log := st.log, ctr := c } := by
  rw [processGroup_phone_reduce now st g hmt hid, hnone]
  simp only [processAfterLookup, noFault]
  set st1 : SaveState :=
    { db := { owners := st.db.owners ++
                [newOwner st.db.nextId
                  (buildOwnerData g.listings g.match_type g.identifier now) now],
              links := st.db.links, nextId := st.db.nextId + 1 },
      stats := { st.stats with new_owners := st.stats.new_owners + 1 },
      log := st.log, ctr := st.ctr + 1 + 1 } with hst1
  have hup : upsertLinks noFault st1.ctr st1.db.links st.db.nextId
      g.match_type g.listings =
      (st.db.links ++ g.listings.map (fun x => mkLink st.db.nextId x.id g.match_type),
       st1.ctr + g.listings.length, none) := by
    exact upsertLinks_fresh_append st.db.nextId g.match_type g.listings st1.ctr
      st.db.links (fun l hl ho _ => hfresh l hl ho) hndids
  refine ⟨st1.ctr + g.listings.length + 1, ?_⟩
  exact processLinks_exact st1 g st.db.nextId _ _ hup

theorem processGroup_phone_update_exact (now : Nat) (st : SaveState)
    (g : OwnerGroup) (o : Owner) (hmt : g.match_type = "phone")
    (hid : g.identifier ≠ "")
    (hfound : lookupExisting st.db g.identifier = some o)
    (hin : ∀ x ∈ g.listings, mkLink o.id x.id g.match_type ∈ st.db.links)
    (hpw : st.db.links.Pairwise (fun a b => ¬ sameLinkKey a b)) :
    ∃ c, processGroup noFault now st g =
      { db := { owners := st.db.owners.map
                  (fun p => if p.id = o.id then
                    applyOwnerData p
                      (buildOwnerData g.listings g.match_type g.identifier now)
                  else p),
                links := st.db.links, nextId := st.db.nextId },
        stats := { total_owners := st.stats.total_owners + 1,
                   multi_property := st.stats.multi_property +
                     (if 1 < g.listings.length then 1 else 0),
                   new_owners := st.stats.new_owners,
                   updated_owners := st.stats.updated_owners + 1 },
        log := st.log, ctr := c } := by
  rw [processGroup_phone_reduce now st g hmt hid, hfound]
  simp only [processAfterLookup, noFault]
  set st1 : SaveState :=
    { db := { st.db with
              owners := st.db.owners.map
                (fun p => if p.id = o.id then
                  applyOwnerData p
                    (buildOwnerData g.listings g.match_type g.identifier now)
                else p) },
      stats := { st.stats with updated_owners := st.stats.updated_owners + 1 },
      log := st.log, ctr := st.ctr + 1 + 1 } with hst1
  have hup : upsertLinks noFault st1.ctr st1.db.links o.id g.match_type g.listings =
      (st.db.links, st1.ctr + g.listings.length, none) := by
    exact upsertLinks_id o.id g.match_type g.listings st1.ctr st.db.links hin hpw
  refine ⟨st1.ctr + g.listings.length + 1, ?_⟩
  exact processLinks_exact st1 g o.id _ _ hup

theorem run1Owners_id_ge (now : Nat) :
    ∀ (gs : List OwnerGroup) (nid : Nat) (o : Owner),
      o ∈ run1Owners gs nid now → nid ≤ o.id := by
  intro gs
  induction gs with
  | nil => intro nid o ho; cases ho
  | cons g t ih =>
    intro nid o ho
    rcases List.mem_cons.mp ho with rfl | ho
    · simp [newOwner]
    · have := ih (nid + 1) o ho
      omega

theorem run1Links_owner_ge :
    ∀ (gs : List OwnerGroup) (nid : Nat) (l : Link),
      l ∈ run1Links gs nid → nid ≤ l.owner_id := by
  intro gs
  induction gs with
  | nil => intro nid l hl; cases hl
  | cons g t ih =>
    intro nid l hl
    rcases List.mem_append.mp hl with hl2 | hl2
    · obtain ⟨x, -, hx⟩ := List.mem_map.mp hl2
      rw [← hx]
      simp [mkLink]
    · have := ih (nid + 1) l hl2
      omega

theorem run1Links_pairwise :
    ∀ (gs : List OwnerGroup) (nid : Nat),
      (∀ g ∈ gs, (g.listings.map (·.id)).Nodup) →
      (run1Links gs nid).Pairwise (fun a b => ¬ sameLinkKey a b) := by
  intro gs
  induction gs with
  | nil => intro nid _; exact List.Pairwise.nil
  | cons g t ih =>
    intro nid hall
    show (g.listings.map (fun l => mkLink nid l.id g.match_type) ++
      run1Links t (nid + 1)).Pairwise _
    rw [List.pairwise_append]
    refine ⟨?_, ih (nid + 1) (fun g' hg' => hall g' (List.mem_cons_of_mem _ hg')), ?_⟩
    · rw [List.pairwise_map]
      have hnd := hall g (List.mem_cons_self _ _)
      have hpair : g.listings.Pairwise (fun a b => a.id ≠ b.id) := by
        rw [← List.pairwise_map (R := fun a b : Nat => a ≠ b)]
        exact hnd
      refine hpair.imp ?_
      intro a b hne hk
      exact hne hk.2
    · intro a ha b hb hk
      obtain ⟨x, -, hx⟩ := List.mem_map.mp ha
      have hbge := run1Links_owner_ge t (nid + 1) b hb
      rw [← hx] at hk
      simp only [mkLink, sameLinkKey] at hk
      omega

theorem run1Links_subset_cons (g : OwnerGroup) (t : List OwnerGroup) (nid : Nat) :
    ∀ l ∈ run1Links t (nid + 1), l ∈ run1Links (g :: t) nid := by
  intro l hl
  show l ∈ _ ++ _
  exact List.mem_append_right _ hl

theorem run1Links_phone (gs : List OwnerGroup)
    (hall : ∀ g ∈ gs, g.match_type = "phone") :
    ∀ (nid : Nat) (l : Link), l ∈ run1Links gs nid →
      l.match_type = "phone" ∧ l.confidence = 1 := by
  induction gs with
  | nil => intro nid l hl; cases hl
  | cons g t ih =>
    intro nid l hl
    rcases List.mem_append.mp hl with hl2 | hl2
    · obtain ⟨x, -, hx⟩ := List.mem_map.mp hl2
      rw [← hx]
      have hg := hall g (List.mem_cons_self _ _)
      constructor
      · simp [mkLink, hg]
      · simp [mkLink, hg]
    · exact ih (fun g' hg' => hall g' (List.mem_cons_of_mem _ hg')) (nid + 1) l hl2

theorem saveFold_run1 (now : Nat) :
    ∀ (gs : List OwnerGroup) (st : SaveState),
      (∀ g ∈ gs, g.match_type = "phone" ∧ g.identifier ≠ "" ∧
        (g.listings.map (·.id)).Nodup) →
      (gs.map (·.identifier)).Nodup →
      (∀ o ∈ st.db.owners, ∀ g ∈ gs, o.primary_phone ≠ some g.identifier) →
      (∀ l ∈ st.db.links, l.owner_id < st.db.nextId) →
      (gs.foldl (processGroup noFault now) st).db.owners =
        st.db.owners ++ run1Owners gs st.db.nextId now ∧
      (gs.foldl (processGroup noFault now) st).db.links =
        st.db.links ++ run1Links gs st.db.nextId ∧
      (gs.foldl (processGroup noFault now) st).db.nextId =
        st.db.nextId + gs.length ∧
      (gs.foldl (processGroup noFault now) st).stats.new_owners =
        st.stats.new_owners + gs.length ∧
      (gs.foldl (processGroup noFault now) st).stats.updated_owners =
        st.stats.updated_owners ∧
      (gs.foldl (processGroup noFault now) st).log = st.log := by
  intro gs
  induction gs with
  | nil => intro st _ _ _ _; simp [run1Owners, run1Links]
  | cons g t ih =>
    intro st hall hids hnomatch hlinks
    obtain ⟨hmt, hid, hnd⟩ := hall g (List.mem_cons_self _ _)
    have hnone : lookupExisting st.db g.identifier = none := by
      rw [lookupExisting, List.find?_eq_none]
      intro o ho
      simp only [decide_eq_true_eq]
      exact hnomatch o ho g (List.mem_cons_self _ _)
    obtain ⟨c, hstep⟩ := processGroup_phone_insert_exact now st g hmt hid hnone
      (fun l hl ho => absurd ho (Nat.ne_of_lt (hlinks l hl))) hnd
    have hfold : (g :: t).foldl (processGroup noFault now) st =
        t.foldl (processGroup noFault now) (processGroup noFault now st g) := rfl
    rw [hfold, hstep]
    set o0 : Owner := newOwner st.db.nextId
      (buildOwnerData g.listings g.match_type g.identifier now) now with ho0
    set st1 : SaveState :=
      { db := { owners := st.db.owners ++ [o0],
                links := st.db.links ++
                  g.listings.map (fun x => mkLink st.db.nextId x.id g.match_type),
                nextId := st.db.nextId + 1 },
        stats := { total_owners := st.stats.total_owners + 1,
                   multi_property := st.stats.multi_property +
                     (if 1 < g.listings.length then 1 else 0),
                   new_owners := st.stats.new_owners + 1,
                   updated_owners := st.stats.updated_owners },
        log := st.log, ctr := c } with hst1
    have hidg : g.identifier ∉ t.map (·.identifier) := by
      rw [List.map_cons] at hids
      exact (List.nodup_cons.mp hids).1
    obtain ⟨ih1, ih2, ih3, ih4, ih5, ih6⟩ := ih st1
      (fun g' hg' => hall g' (List.mem_cons_of_mem _ hg'))
      ((List.nodup_cons.mp (by rw [List.map_cons] at hids; exact hids)).2)
      (by
        intro o ho g' hg'
        rcases List.mem_append.mp ho with ho2 | ho2
        · exact hnomatch o ho2 g' (List.mem_cons_of_mem _ hg')
        · simp only [List.mem_singleton] at ho2
          subst ho2
          have : o0.primary_phone = some g.identifier := by
            simp [ho0, newOwner, buildOwnerData, hmt]
          rw [this]
          intro heq
          apply hidg
          rw [Option.some_inj.mp heq]
          exact List.mem_map_of_mem _ hg')
      (by
        intro l hl
        rcases List.mem_append.mp hl with hl2 | hl2
        · have := hlinks l hl2
          simp only [hst1]
          omega
        · obtain ⟨x, -, hx⟩ := List.mem_map.mp hl2
          rw [← hx]
          simp [mkLink, hst1])
    refine ⟨?_, ?_, ?_, ?_, ?_, ?_⟩
    · rw [ih1]
      simp only [hst1]
      rw [List.append_assoc]
      rfl
    · rw [ih2]
      simp only [hst1]
      rw [List.append_assoc]
      rfl
    · rw [ih3]
      simp only [hst1, List.length_cons]
      omega
    · rw [ih4]
      simp only [hst1, List.length_cons]
      omega
    · rw [ih5]
    · rw [ih6]

theorem map_eq_self {α : Type} (f : α → α) (L : List α)
    (h : ∀ a ∈ L, f a = a) : L.map f = L := by
  have h2 : L.map f = L.map id := List.map_congr_left (by simpa using h)
  simpa using h2

theorem saveFold_run2 (now1 now2 : Nat) :
    ∀ (gs : List OwnerGroup) (A : List Owner) (nid : Nat) (st : SaveState),
      (∀ g ∈ gs, g.match_type = "phone" ∧ g.identifier ≠ "" ∧
        (g.listings.map (·.id)).Nodup) →
      (gs.map (·.identifier)).Nodup →
      st.db.owners = A ++ run1Owners gs nid now1 →
      (∀ o ∈ A, ∀ g ∈ gs, o.primary_phone ≠ some g.identifier) →
      (∀ o ∈ A, o.id < nid) →
      (∀ l ∈ run1Links gs nid, l ∈ st.db.links) →
      st.db.links.Pairwise (fun a b => ¬ sameLinkKey a b) →
      (gs.foldl (processGroup noFault now2) st).db.owners =
        A ++ (run1Owners gs nid now1).map (touchLastSeen now2) ∧
      (gs.foldl (processGroup noFault now2) st).db.links = st.db.links ∧
      (gs.foldl (processGroup noFault now2) st).db.nextId = st.db.nextId ∧
      (gs.foldl (processGroup noFault now2) st).stats.new_owners =
        st.stats.new_owners ∧
      (gs.foldl (processGroup noFault now2) st).stats.updated_owners =
        st.stats.updated_owners + gs.length ∧
      (gs.foldl (processGroup noFault now2) st).log = st.log := by
  intro gs
  induction gs with
  | nil =>
    intro A nid st _ _ howners _ _ _ _
    refine ⟨?_, rfl, rfl, rfl, rfl, rfl⟩
    show st.db.owners = _
    rw [howners]
    rfl
  | cons g t ih =>
    intro A nid st hall hids howners hnomatch haids hsub hpw
    obtain ⟨hmt, hid, hnd⟩ := hall g (List.mem_cons_self _ _)
    set o0 : Owner := newOwner nid
      (buildOwnerData g.listings g.match_type g.identifier now1) now1 with ho0
    have howners2 : st.db.owners = A ++ o0 :: run1Owners t (nid + 1) now1 :=
      howners
    have hphone0 : o0.primary_phone = some g.identifier := by
      simp [ho0, newOwner, buildOwnerData, hmt]
    have hfound : lookupExisting st.db g.identifier = some o0 := by
      rw [lookupExisting, howners2, List.find?_append]
      have hA : A.find? (fun o => decide (o.primary_phone = some g.identifier))
          = none := by
        rw [List.find?_eq_none]
        intro o ho
        simp only [decide_eq_true_eq]
        exact hnomatch o ho g (List.mem_cons_self _ _)
      have hhead : (o0 :: run1Owners t (nid + 1) now1).find?
          (fun o => decide (o.primary_phone = some g.identifier)) = some o0 :=
        List.find?_cons_of_pos _ (by simp [hphone0])
      rw [hA, hhead]
      rfl
    have hin : ∀ x ∈ g.listings, mkLink o0.id x.id g.match_type ∈ st.db.links := by
      intro x hx
      have : mkLink nid x.id g.match_type ∈ run1Links (g :: t) nid := by
        show _ ∈ _ ++ _
        exact List.mem_append_left _ (List.mem_map_of_mem _ hx)
      have ho0id : o0.id = nid := rfl
      rw [ho0id]
      exact hsub _ this
    obtain ⟨c, hstep⟩ := processGroup_phone_update_exact now2 st g o0 hmt hid
      hfound hin hpw
    have hfold : (g :: t).foldl (processGroup noFault now2) st =
        t.foldl (processGroup noFault now2) (processGroup noFault now2 st g) := rfl
    rw [hfold, hstep]
    have hmap : st.db.owners.map
        (fun p => if p.id = o0.id then
          applyOwnerData p
            (buildOwnerData g.listings g.match_type g.identifier now2)
        else p) =
        (A ++ [touchLastSeen now2 o0]) ++ run1Owners t (nid + 1) now1 := by
      rw [howners2, List.map_append, List.map_cons]
      have hA : A.map (fun p => if p.id = o0.id then
          applyOwnerData p
            (buildOwnerData g.listings g.match_type g.identifier now2)
          else p) = A := by
        refine map_eq_self _ _ ?_
        intro a ha
        rw [if_neg]
        have := haids a ha
        have ho0id : o0.id = nid := rfl
        rw [ho0id]
        omega
      have hT : (run1Owners t (nid + 1) now1).map (fun p => if p.id = o0.id then
          applyOwnerData p
            (buildOwnerData g.listings g.match_type g.identifier now2)
          else p) = run1Owners t (nid + 1) now1 := by
        refine map_eq_self _ _ ?_
        intro a ha
        rw [if_neg]
        have := run1Owners_id_ge now1 t (nid + 1) a ha
        have ho0id : o0.id = nid := rfl
        rw [ho0id]
        omega
      have hhead : (if o0.id = o0.id then
          applyOwnerData o0
            (buildOwnerData g.listings g.match_type g.identifier now2)
          else o0) = touchLastSeen now2 o0 := by
        rw [if_pos rfl, ho0]
        exact apply_refresh nid now1 now2 g.listings g.match_type g.identifier hmt
      rw [hA, hT, hhead]
      simp
    set st1 : SaveState :=
      { db := { owners := st.db.owners.map
                  (fun p => if p.id = o0.id then
                    applyOwnerData p
                      (buildOwnerData g.listings g.match_type g.identifier now2)
                  else p),
                links := st.db.links, nextId := st.db.nextId },
        stats := { total_owners := st.stats.total_owners + 1,
                   multi_property := st.stats.multi_property +
                     (if 1 < g.listings.length then 1 else 0),
                   new_owners := st.stats.new_owners,
                   updated_owners := st.stats.updated_owners + 1 },
        log := st.log, ctr := c } with hst1
    obtain ⟨ih1, ih2, ih3, ih4, ih5, ih6⟩ := ih (A ++ [touchLastSeen now2 o0])
      (nid + 1) st1
      (fun g' hg' => hall g' (List.mem_cons_of_mem _ hg'))
      ((List.nodup_cons.mp (by rw [List.map_cons] at hids; exact hids)).2)
      (by
        simp only [hst1]
        exact hmap)
      (by
        intro o ho g' hg'
        rcases List.mem_append.mp ho with ho2 | ho2
        · exact hnomatch o ho2 g' (List.mem_cons_of_mem _ hg')
        · simp only [List.mem_singleton] at ho2
          subst ho2
          have hphone1 : (touchLastSeen now2 o0).primary_phone =
              some g.identifier := hphone0
          rw [hphone1]
          intro heq
          have hidg : g.identifier ∉ t.map (·.identifier) := by
            rw [List.map_cons] at hids
            exact (List.nodup_cons.mp hids).1
          apply hidg
          rw [Option.some_inj.mp heq]
          exact List.mem_map_of_mem _ hg')
      (by
        intro o ho
        rcases List.mem_append.mp ho with ho2 | ho2
        · have := haids o ho2
          omega
        · simp only [List.mem_singleton] at ho2
          subst ho2
          have : (touchLastSeen now2 o0).id = nid := rfl
          omega)
      (by
        intro l hl
        simp only [hst1]
        exact hsub l (run1Links_subset_cons g t nid l hl))
      (by
        simp only [hst1]
        exact hpw)
    refine ⟨?_, ?_, ?_, ?_, ?_, ?_⟩
    · rw [ih1]
      show (A ++ [touchLastSeen now2 o0]) ++ _ = _
      rw [List.append_assoc]
      rfl
    · rw [ih2]
    · rw [ih3]
    · rw [ih4]
    · rw [ih5]
      simp only [hst1, List.length_cons]
      omega
    · rw [ih6]

/-! ## Claim theorems -/

/-- C2: the phone normalizer is a total function on strings that strips all
non-digit characters, applies exactly one prefix rule, and returns the
string `+221` followed by the remainder exactly when the remainder has 9
digits and starts with 7 or 3; the five cited inputs behave as stated. -/
theorem C2_phone_normalizer :
    (∀ s r, normalize_phone s = some r ↔
      ((stripCountry (digitsOf s)).length = 9 ∧
        ((stripCountry (digitsOf s)).head? = some '7' ∨
          (stripCountry (digitsOf s)).head? = some '3') ∧
        r = String.mk ('+' :: '2' :: '2' :: '1' :: stripCountry (digitsOf s)))) ∧
    normalize_phone "+221771234567" = some "+221771234567" ∧
    normalize_phone "00221771234567" = some "+221771234567" ∧
    normalize_phone "0771234567" = some "+221771234567" ∧
    normalize_phone "123" = none ∧
    normalize_phone "221991234567" = none := by
  refine ⟨?_, by decide, by decide, by decide, by decide, by decide⟩
  intro s r
  by_cases hs : s = ""
  · subst hs
    have hd : stripCountry (digitsOf "") = [] := rfl
    simp [normalize_phone, hd]
  · simp only [normalize_phone, if_neg hs]
    split_ifs with hc
    · obtain ⟨h9, h73⟩ := hc
      simp only [Option.some.injEq]
      constructor
      · intro hr
        refine ⟨h9, ?_, hr.symm⟩
        rcases h73 with h | h
        · exact Or.inl ((singleton_isPrefixOf_iff _ _).mp h)
        · exact Or.inr ((singleton_isPrefixOf_iff _ _).mp h)
      · rintro ⟨-, -, hr⟩
        exact hr.symm
    · constructor
      · rintro ⟨⟩
      · rintro ⟨h9, h73, -⟩
        refine absurd ⟨h9, ?_⟩ hc
        rcases h73 with h | h
        · exact Or.inl ((singleton_isPrefixOf_iff _ _).mpr h)
        · exact Or.inr ((singleton_isPrefixOf_iff _ _).mpr h)

/-- C3: per listing, the extractor yields at most one phone signal, namely
the first valid normalizer result over the fields phone, phoneNumber,
whatsapp, contact_phone in that order, and a host-id signal exists exactly
when the host id is non-empty and the platform is airbnb or booking. -/
theorem C3_signal_extractor (l : Listing) :
    extract_phone_from_listing l =
      firstValidPhone [(l.raw_data.getD RawData.empty).phone,
        (l.raw_data.getD RawData.empty).phoneNumber,
        (l.raw_data.getD RawData.empty).whatsapp,
        (l.raw_data.getD RawData.empty).contact_phone] ∧
    ((hostKey l).isSome ↔ ∃ h, l.host_id = some h ∧ h ≠ "" ∧
      (l.platform = "airbnb" ∨ l.platform = "booking")) := by
  constructor
  · unfold extract_phone_from_listing
    exact tryPhoneFields_eq _
  · cases hh : l.host_id with
    | none => simp [hostKey, hh]
    | some h =>
      simp only [hostKey, hh]
      split_ifs with hc
      · simp only [Option.isSome_some, true_iff]
        refine ⟨h, rfl, hc.1, ?_⟩
        simpa using hc.2
      · simp only [Option.isSome_none, Bool.false_eq_true, false_iff]
        rintro ⟨h', hh', hne, hp⟩
        obtain rfl : h = h' := by injection hh'
        exact hc ⟨hne, by simpa using hp⟩

/-- C8 counterexample: on a cluster of two listings with prices 100 and 101
the aggregator computes 100, which is not the arithmetic mean 201/2 of the
positive prices, so the computed value is not the arithmetic mean. -/
theorem C8_counterexample :
    posPrices [pricedListing 1 100, pricedListing 2 101] = [100, 101] ∧
    (buildOwnerData [pricedListing 1 100, pricedListing 2 101] "phone" "+221770000000"
      0).avg_price_per_night = 100 ∧
    ¬ (((buildOwnerData [pricedListing 1 100, pricedListing 2 101] "phone" "+221770000000"
      0).avg_price_per_night : ℚ) = (100 + 101) / 2) := by
  refine ⟨by decide, by decide, ?_⟩
  have h : (buildOwnerData [pricedListing 1 100, pricedListing 2 101] "phone" "+221770000000"
      0).avg_price_per_night = 100 := by decide
  rw [h]
  norm_num

/-- C8 amended: the aggregator computes `avg_price_per_night` as the integer
floor of the arithmetic mean of the positive prices (0 when there is none)
and `estimated_monthly_revenue` as that value times the member count times
15; the cited cluster with prices 100, 150, 50 yields 100 and 4500. -/
theorem C8_aggregator_amended (listings : List Listing) (mt ident : String) (now : Nat) :
    ((buildOwnerData listings mt ident now).avg_price_per_night =
      if 0 < (posPrices listings).length then
        (posPrices listings).sum / ((posPrices listings).length : Int)
      else 0) ∧
    ((buildOwnerData listings mt ident now).estimated_monthly_revenue =
      (buildOwnerData listings mt ident now).avg_price_per_night *
        (listings.length : Int) * 15) ∧
    (buildOwnerData [pricedListing 1 100, pricedListing 2 150, pricedListing 3 50]
      "phone" "+221770000000" 0).avg_price_per_night = 100 ∧
    (buildOwnerData [pricedListing 1 100, pricedListing 2 150, pricedListing 3 50]
      "phone" "+221770000000" 0).estimated_monthly_revenue = 4500 := by
  exact ⟨buildOwnerData_avg listings mt ident now,
    buildOwnerData_revenue listings mt ident now, by decide, by decide⟩

/-- C1: over an active-listing set with distinct ids, the produced clusters
have pairwise disjoint listing ids (phone clusters claim first, host-id
groups keep only unclaimed listings and vanish when empty), and one
resolution run from an empty owner store links every listing at most
once. -/
theorem C1_no_double_membership (store : List Listing) (now : Nat)
    (hnd : ((store.filter (·.is_active)).map (·.id)).Nodup) :
    (build_owner_groups (store.filter (·.is_active))).Pairwise
      (fun a b => a.listing_ids.Disjoint b.listing_ids) ∧
    (∀ g ∈ build_owner_groups (store.filter (·.is_active)),
      g.listing_ids ≠ []) ∧
    (∀ lid, (detect_owners noFault now emptyDB store).db.links.countP
      (fun l => decide (l.scraped_listing_id = lid)) ≤ 1) := by
  obtain ⟨h1, h2, h3⟩ := build_groups_invariants (store.filter (·.is_active)) hnd
  refine ⟨h1, h2, ?_⟩
  intro lid
  exact saveFold_links noFault now
    (build_owner_groups (store.filter (·.is_active))) (startState emptyDB)
    h1 h3 (by simp [startState, emptyDB]) (by simp [startState, emptyDB]) lid

/-- C1 witness: the two-listing store has distinct ids, its two clusters are
id-disjoint, and after the run listing 1 carries at most one link row. -/
theorem C1_no_double_membership_witness :
    (([listingA, listingB].filter (·.is_active)).map (·.id)).Nodup ∧
    (build_owner_groups ([listingA, listingB].filter (·.is_active))).Pairwise
      (fun a b => a.listing_ids.Disjoint b.listing_ids) ∧
    (detect_owners noFault 5 emptyDB [listingA, listingB]).db.links.countP
      (fun l => decide (l.scraped_listing_id = 1)) ≤ 1 := by
  have h := C1_no_double_membership [listingA, listingB] 5 (by decide)
  exact ⟨by decide, h.1, h.2.2 1⟩

/-- C5: a phone cluster is reconciled by exact `primary_phone` lookup; a hit
overwrites the derived fields and refreshes only `last_seen_at`, a miss
inserts a new owner keyed by the identifier with both timestamps set to the
current time. -/
theorem C5_phone_reconciliation (now : Nat) (st : SaveState) (g : OwnerGroup)
    (hmt : g.match_type = "phone") (hid : g.identifier ≠ "") :
    (∀ o, lookupExisting st.db g.identifier = some o →
      ∃ st', processGroup noFault now st g = st' ∧
        st'.db.owners = st.db.owners.map
          (fun p => if p.id = o.id then
            applyOwnerData p (buildOwnerData g.listings g.match_type g.identifier now)
          else p) ∧
        (applyOwnerData o (buildOwnerData g.listings g.match_type g.identifier
          now)).last_seen_at = now ∧
        (applyOwnerData o (buildOwnerData g.listings g.match_type g.identifier
          now)).first_seen_at = o.first_seen_at ∧
        (applyOwnerData o (buildOwnerData g.listings g.match_type g.identifier
          now)).names =
          (buildOwnerData g.listings g.match_type g.identifier now).names ∧
        (applyOwnerData o (buildOwnerData g.listings g.match_type g.identifier
          now)).platforms =
          (buildOwnerData g.listings g.match_type g.identifier now).platforms ∧
        (applyOwnerData o (buildOwnerData g.listings g.match_type g.identifier
          now)).listing_count = g.listings.length ∧
        (applyOwnerData o (buildOwnerData g.listings g.match_type g.identifier
          now)).avg_price_per_night =
          (buildOwnerData g.listings g.match_type g.identifier
            now).avg_price_per_night ∧
        (applyOwnerData o (buildOwnerData g.listings g.match_type g.identifier
          now)).primary_phone = some g.identifier ∧
        st'.stats.updated_owners = st.stats.updated_owners + 1 ∧
        st'.stats.new_owners = st.stats.new_owners) ∧
    (lookupExisting st.db g.identifier = none →
      ∃ st', processGroup noFault now st g = st' ∧
        st'.db.owners = st.db.owners ++
          [newOwner st.db.nextId
            (buildOwnerData g.listings g.match_type g.identifier now) now] ∧
        (newOwner st.db.nextId
          (buildOwnerData g.listings g.match_type g.identifier now)
          now).primary_phone = some g.identifier ∧
        (newOwner st.db.nextId
          (buildOwnerData g.listings g.match_type g.identifier now)
          now).first_seen_at = now ∧
        (newOwner st.db.nextId
          (buildOwnerData g.listings g.match_type g.identifier now)
          now).last_seen_at = now ∧
        st'.stats.new_owners = st.stats.new_owners + 1 ∧
        st'.stats.updated_owners = st.stats.updated_owners) := by
  have hphone : (buildOwnerData g.listings g.match_type g.identifier
      now).primary_phone = some g.identifier := by
    simp [buildOwnerData, hmt]
  constructor
  · intro o ho
    rw [processGroup_phone_reduce now st g hmt hid, ho]
    obtain ⟨L, c, h⟩ := processAfterLookup_update now { st with ctr := st.ctr + 1 } g
      (buildOwnerData g.listings g.match_type g.identifier now) o
    refine ⟨_, h, ?_, ?_, ?_, ?_, ?_, ?_, ?_, ?_, ?_, ?_⟩
    · rfl
    · rfl
    · rfl
    · rfl
    · rfl
    · rfl
    · rfl
    · simp [applyOwnerData, hphone]
    · rfl
    · rfl
  · intro ho
    rw [processGroup_phone_reduce now st g hmt hid, ho]
    obtain ⟨L, c, h⟩ := processAfterLookup_insert now { st with ctr := st.ctr + 1 } g
      (buildOwnerData g.listings g.match_type g.identifier now)
    refine ⟨_, h, ?_, ?_, ?_, ?_, ?_, ?_⟩
    · rfl
    · simpa [newOwner] using hphone
    · rfl
    · rfl
    · rfl
    · rfl

/-- C5 witness: processing the concrete phone cluster of `listingA` against
an empty store takes the insert branch with the stated fields. -/
theorem C5_phone_reconciliation_witness :
    (phoneGroupW.match_type = "phone" ∧ phoneGroupW.identifier ≠ "" ∧
      lookupExisting (startState emptyDB).db phoneGroupW.identifier = none) ∧
    (processGroup noFault 5 (startState emptyDB) phoneGroupW).db.owners =
      [newOwner 0
        (buildOwnerData phoneGroupW.listings phoneGroupW.match_type
          phoneGroupW.identifier 5) 5] ∧
    (processGroup noFault 5 (startState emptyDB) phoneGroupW).stats.new_owners
      = 1 ∧
    (processGroup noFault 5 (startState emptyDB)
      phoneGroupW).stats.updated_owners = 0 := by
  have h := (C5_phone_reconciliation 5 (startState emptyDB) phoneGroupW
    (by decide) (by decide)).2 (by decide)
  obtain ⟨st', heq, howners, -, -, -, hnew, hupd⟩ := h
  rw [heq]
  exact ⟨⟨by decide, by decide, by decide⟩, howners, hnew, hupd⟩

theorem detect_hostonly_step (now : Nat) (store : List Listing)
    (hall : ∀ g ∈ build_owner_groups (store.filter (·.is_active)),
      g.match_type = "host_id") (d : DB) :
    (detect_owners noFault now d store).db.owners.length =
      d.owners.length +
        (build_owner_groups (store.filter (·.is_active))).length := by
  exact saveFold_hostonly_length now _ hall (startState d)

/-- C6: a host-id cluster performs no existing-owner lookup and always
inserts a fresh owner row, so repeated runs over an unchanged listing set
whose clusters are all host-id-keyed grow the owner table by one row per
cluster per run, without bound. -/
theorem C6_hostid_always_inserts :
    (∀ (now : Nat) (st : SaveState) (g : OwnerGroup), g.match_type = "host_id" →
      ∃ L c, processGroup noFault now st g =
        { db := { owners := st.db.owners ++
                    [newOwner st.db.nextId
                      (buildOwnerData g.listings g.match_type g.identifier now) now],
                  links := L, nextId := st.db.nextId + 1 },
          stats := { total_owners := st.stats.total_owners + 1,
                     multi_property := st.stats.multi_property +
                       (if 1 < g.listings.length then 1 else 0),
                     new_owners := st.stats.new_owners + 1,
                     updated_owners := st.stats.updated_owners },
          log := st.log, ctr := c }) ∧
    (∀ (now : Nat) (store : List Listing) (db : DB) (n : Nat),
      (∀ g ∈ build_owner_groups (store.filter (·.is_active)),
        g.match_type = "host_id") →
      ((fun d => (detect_owners noFault now d store).db)^[n] db).owners.length =
        db.owners.length +
          n * (build_owner_groups (store.filter (·.is_active))).length) := by
  constructor
  · exact fun now st g hmt => processGroup_host_shape now st g hmt
  · intro now store db n hall
    induction n with
    | zero => simp
    | succ k ih =>
      simp only [Function.iterate_succ_apply']
      rw [detect_hostonly_step now store hall, ih]
      ring

/-- C6 witness: the concrete host-id cluster of `listingB` inserts against
any store, and two runs over the one-listing store add two owner rows. -/
theorem C6_hostid_always_inserts_witness :
    (hostGroupW.match_type = "host_id" ∧
      (∀ g ∈ build_owner_groups ([listingB].filter (·.is_active)),
        g.match_type = "host_id")) ∧
    (processGroup noFault 5 (startState emptyDB) hostGroupW).db.owners.length
      = 1 ∧
    (processGroup noFault 5 (startState emptyDB) hostGroupW).stats.new_owners
      = 1 ∧
    ((fun d => (detect_owners noFault 5 d [listingB]).db)^[2] emptyDB).owners.length =
      emptyDB.owners.length +
        2 * (build_owner_groups ([listingB].filter (·.is_active))).length := by
  refine ⟨⟨by decide, by decide⟩, ?_, ?_, ?_⟩
  · obtain ⟨L, c, h⟩ := C6_hostid_always_inserts.1 5 (startState emptyDB) hostGroupW
      (by decide)
    rw [h]
    rfl
  · obtain ⟨L, c, h⟩ := C6_hostid_always_inserts.1 5 (startState emptyDB) hostGroupW
      (by decide)
    rw [h]
    rfl
  · exact C6_hostid_always_inserts.2 5 [listingB] emptyDB 2 (by decide)

/-- C10: the owner inserted for a host-id cluster has no `primary_phone`;
the host-id identifier lands only in the aggregated `host_ids` set; a
phoneless owner row is never matched or modified by any later run; the
report projects such owners with no phone. -/
theorem C10_hostid_owner_unmatchable :
    (∀ (now : Nat) (st : SaveState) (g : OwnerGroup), g.match_type = "host_id" →
      ∃ st', processGroup noFault now st g = st' ∧
        st'.db.owners = st.db.owners ++
          [newOwner st.db.nextId
            (buildOwnerData g.listings g.match_type g.identifier now) now] ∧
        (newOwner st.db.nextId
          (buildOwnerData g.listings g.match_type g.identifier now)
          now).primary_phone = none) ∧
    (∀ (now : Nat) (g : OwnerGroup), g.match_type = "host_id" →
      (∀ l ∈ g.listings, ∃ h, l.host_id = some h ∧ h ≠ "" ∧
        l.platform ++ ":" ++ h = g.identifier) →
      g.listings ≠ [] →
      g.identifier ∈
        (buildOwnerData g.listings g.match_type g.identifier now).host_ids) ∧
    (∀ (fault : Nat → Option String) (now : Nat) (db : DB)
      (gs : List OwnerGroup) (o : Owner),
      o ∈ db.owners → o.primary_phone = none →
      (db.owners.map (·.id)).Nodup →
      (∀ p ∈ db.owners, p.id < db.nextId) →
      o ∈ (save_owners_to_db fault now db gs).db.owners) ∧
    (∀ o : Owner, o.primary_phone = none →
      (topOperatorOf o).phone = none ∧
      phoneDisplay (topOperatorOf o).phone = "No phone") := by
  refine ⟨?_, ?_, ?_, ?_⟩
  · intro now st g hmt
    obtain ⟨L, c, h⟩ := processGroup_host_shape now st g hmt
    refine ⟨_, h, rfl, ?_⟩
    simp only [newOwner]
    rw [hmt]
    simp only [buildOwnerData]
    rw [if_neg (by decide : ¬("host_id" : String) = "phone")]
  · intro now g hmt hkeys hne
    obtain ⟨l, hl⟩ := List.exists_mem_of_ne_nil _ hne
    obtain ⟨h, hh, hne2, hkey⟩ := hkeys l hl
    rw [← hkey]
    exact buildOwnerData_hostIds_mem g.listings g.match_type g.identifier now l
      hl h hh hne2
  · intro fault now db gs o ho hph hnd hlt
    exact saveFold_keeps fault now gs (startState db) o ho hph hnd hlt
  · intro o h
    constructor
    · simp [topOperatorOf, h]
    · simp [phoneDisplay, topOperatorOf, h]

/-- C10 witness: the concrete host-id cluster of `listingB` inserts a
phoneless owner whose `host_ids` hold the identifier, the stored phoneless
owner survives a later phone-cluster run untouched, and the report shows it
with no phone. -/
theorem C10_hostid_owner_unmatchable_witness :
    (hostGroupW.match_type = "host_id" ∧
      (∀ l ∈ hostGroupW.listings, ∃ h, l.host_id = some h ∧ h ≠ "" ∧
        l.platform ++ ":" ++ h = hostGroupW.identifier) ∧
      hostGroupW.listings ≠ [] ∧
      ownerW ∈ dbW.owners ∧ ownerW.primary_phone = none ∧
      (dbW.owners.map (·.id)).Nodup ∧
      (∀ p ∈ dbW.owners, p.id < dbW.nextId)) ∧
    (processGroup noFault 5 (startState emptyDB) hostGroupW).db.owners =
      [newOwner 0
        (buildOwnerData hostGroupW.listings hostGroupW.match_type
          hostGroupW.identifier 5) 5] ∧
    (newOwner 0
      (buildOwnerData hostGroupW.listings hostGroupW.match_type
        hostGroupW.identifier 5) 5).primary_phone = none ∧
    hostGroupW.identifier ∈
      (buildOwnerData hostGroupW.listings hostGroupW.match_type
        hostGroupW.identifier 5).host_ids ∧
    ownerW ∈ (save_owners_to_db noFault 7 dbW [phoneGroupW]).db.owners ∧
    (topOperatorOf ownerW).phone = none ∧
    phoneDisplay (topOperatorOf ownerW).phone = "No phone" := by
  obtain ⟨st', heq, hown, hph⟩ :=
    C10_hostid_owner_unmatchable.1 5 (startState emptyDB) hostGroupW (by decide)
  refine ⟨⟨by decide, by decide, by decide, by decide, by decide, by decide,
    by decide⟩, ?_, ?_, ?_, ?_, ?_⟩
  · rw [heq]
    exact hown
  · exact hph
  · exact C10_hostid_owner_unmatchable.2.1 5 hostGroupW (by decide) (by decide)
      (by decide)
  · exact C10_hostid_owner_unmatchable.2.2.1 noFault 7 dbW [phoneGroupW] ownerW
      (by decide) (by decide) (by decide) (by decide)
  · exact C10_hostid_owner_unmatchable.2.2.2 ownerW (by decide)

/-- C9 counterexample: with a store failure at the first link upsert of the
single phone cluster, the run logs the exception and continues, yet
`new_owners` is 1 while `total_owners` is 0, so the returned counts do not
reflect only the clusters whose writes succeeded; the logged line carries
the exception message and not the offending identifier. -/
theorem C9_counterexample :
    (save_owners_to_db (faultAt 2 "boom") 5 emptyDB [phoneGroupW]).stats.new_owners
      = 1 ∧
    (save_owners_to_db (faultAt 2 "boom") 5 emptyDB
      [phoneGroupW]).stats.total_owners = 0 ∧
    (save_owners_to_db (faultAt 2 "boom") 5 emptyDB [phoneGroupW]).log =
      [errLine "boom"] ∧
    (save_owners_to_db (faultAt 2 "boom") 5 emptyDB [phoneGroupW]).db.links = [] ∧
    containsSeg phoneGroupW.identifier.data (errLine "boom").data = false := by
  refine ⟨by decide, by decide, by decide, by decide, by decide⟩

/-- C9 amended: a per-cluster exception is caught and logged with the
exception message (the identifier is not part of the log line) and the run
proceeds: every cluster either completes and is counted in `total_owners`
or contributes exactly one logged error; `total_owners` never exceeds
`new_owners + updated_owners`, which may also count clusters that failed
after the owner write; `multi_property` counts only fully successful
clusters so it never exceeds `total_owners`; and all four counters stay
bounded by the cluster count. -/
theorem C9_error_handling_amended (fault : Nat → Option String) (now : Nat)
    (db : DB) (gs : List OwnerGroup) :
    (save_owners_to_db fault now db gs).stats.total_owners +
      (save_owners_to_db fault now db gs).log.length = gs.length ∧
    (save_owners_to_db fault now db gs).stats.total_owners ≤
      (save_owners_to_db fault now db gs).stats.new_owners +
      (save_owners_to_db fault now db gs).stats.updated_owners ∧
    (save_owners_to_db fault now db gs).stats.new_owners +
      (save_owners_to_db fault now db gs).stats.updated_owners ≤ gs.length ∧
    (save_owners_to_db fault now db gs).stats.multi_property ≤
      (save_owners_to_db fault now db gs).stats.total_owners ∧
    (save_owners_to_db fault now db gs).stats.total_owners ≤ gs.length ∧
    (save_owners_to_db fault now db gs).stats.multi_property ≤ gs.length ∧
    (∀ e ∈ (save_owners_to_db fault now db gs).log,
      ∃ i m, fault i = some m ∧ e = errLine m) := by
  obtain ⟨h1, h2, h3, h4, hm, h5⟩ := saveFold_stats fault now gs (startState db)
  have h1s : (save_owners_to_db fault now db gs).stats.total_owners +
      (save_owners_to_db fault now db gs).log.length = gs.length := by
    simpa [startState] using h1
  have hms : (save_owners_to_db fault now db gs).stats.multi_property ≤
      (save_owners_to_db fault now db gs).stats.total_owners :=
    hm (by simp [startState])
  refine ⟨h1s, h4 (by simp [startState]), by simpa [startState] using h3,
    hms, by omega, by omega, ?_⟩
  intro e he
  rcases h5 e he with he2 | he2
  · simp [startState] at he2
  · exact he2

/-- C7: over phone-keyed clusters with distinct identifiers, a second
fault-free run on the unchanged cluster list updates rather than inserts,
leaves the link table exactly as after the first run (upserts keyed on
owner and listing), rewrites each owner only in `last_seen_at`, keeps the
link keys duplicate-free, and every link carries confidence 1 for phone
matches while host-id links would carry 9/10. -/
theorem C7_phone_idempotence (now1 now2 : Nat) (gs : List OwnerGroup)
    (hall : ∀ g ∈ gs, g.match_type = "phone" ∧ g.identifier ≠ "" ∧
      (g.listings.map (·.id)).Nodup)
    (hids : (gs.map (·.identifier)).Nodup) :
    (save_owners_to_db noFault now2
      (save_owners_to_db noFault now1 emptyDB gs).db gs).stats.new_owners = 0 ∧
    (save_owners_to_db noFault now2
      (save_owners_to_db noFault now1 emptyDB gs).db gs).stats.updated_owners =
      gs.length ∧
    (save_owners_to_db noFault now2
      (save_owners_to_db noFault now1 emptyDB gs).db gs).db.links =
      (save_owners_to_db noFault now1 emptyDB gs).db.links ∧
    (save_owners_to_db noFault now2
      (save_owners_to_db noFault now1 emptyDB gs).db gs).db.owners =
      (save_owners_to_db noFault now1 emptyDB gs).db.owners.map
        (touchLastSeen now2) ∧
    (save_owners_to_db noFault now2
      (save_owners_to_db noFault now1 emptyDB gs).db gs).db.links.Pairwise
      (fun a b => ¬ sameLinkKey a b) ∧
    (∀ l ∈ (save_owners_to_db noFault now1 emptyDB gs).db.links,
      l.match_type = "phone" ∧ l.confidence = 1) ∧
    (∀ oid lid : Nat, (mkLink oid lid "phone").confidence = 1 ∧
      (mkLink oid lid "host_id").confidence = 9 / 10) := by
  obtain ⟨h1, h2, h3, h4, h5, h6⟩ := saveFold_run1 now1 gs (startState emptyDB)
    hall hids (by simp [startState, emptyDB]) (by simp [startState, emptyDB])
  have hndall : ∀ g ∈ gs, (g.listings.map (·.id)).Nodup :=
    fun g hg => (hall g hg).2.2
  have hpw1 : (gs.foldl (processGroup noFault now1)
      (startState emptyDB)).db.links.Pairwise (fun a b => ¬ sameLinkKey a b) := by
    rw [h2]
    simpa [startState, emptyDB] using run1Links_pairwise gs 0 hndall
  obtain ⟨c1, c2, c3, c4, c5, c6⟩ := saveFold_run2 now1 now2 gs [] 0
    (startState (gs.foldl (processGroup noFault now1) (startState emptyDB)).db)
    hall hids
    (by
      show (gs.foldl (processGroup noFault now1) (startState emptyDB)).db.owners
        = [] ++ run1Owners gs 0 now1
      rw [h1]
      rfl)
    (by simp)
    (by simp)
    (by
      intro l hl
      show l ∈ (gs.foldl (processGroup noFault now1) (startState emptyDB)).db.links
      rw [h2]
      exact List.mem_append_right _ hl)
    (by
      show (gs.foldl (processGroup noFault now1)
        (startState emptyDB)).db.links.Pairwise _
      exact hpw1)
  refine ⟨?_, ?_, ?_, ?_, ?_, ?_, ?_⟩
  · show (gs.foldl (processGroup noFault now2)
      (startState (gs.foldl (processGroup noFault now1)
        (startState emptyDB)).db)).stats.new_owners = 0
    rw [c4]
    rfl
  · show (gs.foldl (processGroup noFault now2)
      (startState (gs.foldl (processGroup noFault now1)
        (startState emptyDB)).db)).stats.updated_owners = gs.length
    rw [c5]
    simp [startState]
  · show (gs.foldl (processGroup noFault now2)
      (startState (gs.foldl (processGroup noFault now1)
        (startState emptyDB)).db)).db.links =
      (gs.foldl (processGroup noFault now1) (startState emptyDB)).db.links
    rw [c2]
    rfl
  · show (gs.foldl (processGroup noFault now2)
      (startState (gs.foldl (processGroup noFault now1)
        (startState emptyDB)).db)).db.owners =
      ((gs.foldl (processGroup noFault now1)
        (startState emptyDB)).db.owners).map (touchLastSeen now2)
    rw [c1, h1]
    simp [startState, emptyDB]
  · show (gs.foldl (processGroup noFault now2)
      (startState (gs.foldl (processGroup noFault now1)
        (startState emptyDB)).db)).db.links.Pairwise _
    rw [c2]
    exact hpw1
  · intro l hl
    have hl2 : l ∈ (gs.foldl (processGroup noFault now1)
        (startState emptyDB)).db.links := hl
    rw [h2] at hl2
    have hl3 : l ∈ run1Links gs 0 := by
      simpa [startState, emptyDB] using hl2
    exact run1Links_phone gs (fun g hg => (hall g hg).1) 0 l hl3
  · intro oid lid
    constructor
    · show (if ("phone" : String) = "phone" then (1 : ℚ) else 9 / 10) = 1
      rw [if_pos rfl]
    · show (if ("host_id" : String) = "phone" then (1 : ℚ) else 9 / 10) = 9 / 10
      rw [if_neg (by decide)]

/-- C7 witness: two fault-free runs over the single concrete phone cluster,
at times 5 and 7: the second run updates instead of inserting, keeps the
links, and only refreshes `last_seen_at`. -/
theorem C7_phone_idempotence_witness :
    (phoneGroupW.match_type = "phone" ∧ phoneGroupW.identifier ≠ "" ∧
      (phoneGroupW.listings.map (·.id)).Nodup ∧
      ([phoneGroupW].map (·.identifier)).Nodup) ∧
    (save_owners_to_db noFault 7
      (save_owners_to_db noFault 5 emptyDB [phoneGroupW]).db
      [phoneGroupW]).stats.new_owners = 0 ∧
    (save_owners_to_db noFault 7
      (save_owners_to_db noFault 5 emptyDB [phoneGroupW]).db
      [phoneGroupW]).stats.updated_owners = 1 ∧
    (save_owners_to_db noFault 7
      (save_owners_to_db noFault 5 emptyDB [phoneGroupW]).db
      [phoneGroupW]).db.links =
      (save_owners_to_db noFault 5 emptyDB [phoneGroupW]).db.links ∧
    (save_owners_to_db noFault 7
      (save_owners_to_db noFault 5 emptyDB [phoneGroupW]).db
      [phoneGroupW]).db.owners =
      (save_owners_to_db noFault 5 emptyDB [phoneGroupW]).db.owners.map
        (touchLastSeen 7) ∧
    (mkLink 0 1 "host_id").confidence = 9 / 10 := by
  have h := C7_phone_idempotence 5 7 [phoneGroupW] (by decide) (by decide)
  exact ⟨⟨by decide, by decide, by decide, by decide⟩, h.1, h.2.1, h.2.2.1,
    h.2.2.2.1, (h.2.2.2.2.2.2 0 1).2⟩

/-- C9 amended witness: the faulty one-cluster run satisfies the amended
accounting, and its one log entry carries the injected exception text. -/
theorem C9_error_handling_amended_witness :
    (save_owners_to_db (faultAt 2 "boom") 5 emptyDB
      [phoneGroupW]).stats.total_owners +
      (save_owners_to_db (faultAt 2 "boom") 5 emptyDB [phoneGroupW]).log.length
      = 1 ∧
    (save_owners_to_db (faultAt 2 "boom") 5 emptyDB
      [phoneGroupW]).stats.total_owners ≤
      (save_owners_to_db (faultAt 2 "boom") 5 emptyDB
        [phoneGroupW]).stats.new_owners +
      (save_owners_to_db (faultAt 2 "boom") 5 emptyDB
        [phoneGroupW]).stats.updated_owners ∧
    (save_owners_to_db (faultAt 2 "boom") 5 emptyDB
      [phoneGroupW]).stats.new_owners +
      (save_owners_to_db (faultAt 2 "boom") 5 emptyDB
        [phoneGroupW]).stats.updated_owners ≤ 1 ∧
    (save_owners_to_db (faultAt 2 "boom") 5 emptyDB
      [phoneGroupW]).stats.multi_property ≤
      (save_owners_to_db (faultAt 2 "boom") 5 emptyDB
        [phoneGroupW]).stats.total_owners ∧
    (save_owners_to_db (faultAt 2 "boom") 5 emptyDB
      [phoneGroupW]).stats.total_owners ≤ 1 ∧
    (save_owners_to_db (faultAt 2 "boom") 5 emptyDB
      [phoneGroupW]).stats.multi_property ≤ 1 ∧
    errLine "boom" ∈ (save_owners_to_db (faultAt 2 "boom") 5 emptyDB
      [phoneGroupW]).log ∧
    (∃ i m, faultAt 2 "boom" i = some m ∧ errLine "boom" = errLine m) := by
  have h := C9_error_handling_amended (faultAt 2 "boom") 5 emptyDB [phoneGroupW]
  exact ⟨h.1, h.2.1, h.2.2.1, h.2.2.2.1, h.2.2.2.2.1, h.2.2.2.2.2.1,
    by decide, h.2.2.2.2.2.2 (errLine "boom") (by decide)⟩

/-- C4: on exactly the two listings A (valid phone, airbnb host id h1) and
B (no phone, same host id), one run builds exactly the phone cluster with A
alone and the host-id cluster with B alone, and no cluster holds both. -/
theorem C4_two_listing_scenario :
    build_owner_groups [listingA, listingB] = [phoneGroupW, hostGroupW] ∧
    ∀ g ∈ build_owner_groups [listingA, listingB],
      ¬ (1 ∈ g.listing_ids ∧ 2 ∈ g.listing_ids) := by
  constructor
  · decide
  · decide

end Gestoo
